import Mathlib

/-!
Verification of the Zen Sanctuary AI clock server (Express/JS backend).

The development shallowly embeds the request handlers of the repository's
server versions:
* `src/unnamed/part_000` — v4.2.0 "Always Listening" (chat with weather/time
  context, `/api/parse-reminder`, single-slot weather cache);
* `src/server.js` — two concatenated versions: v2.0.0 "Diagnostic Mode" and
  the Phase 4/7 version;
* `src/unnamed/part_001` — the Railway/production version (health check);
* `src/unnamed/part_002` — the Feb 2026 revision.

JavaScript strings are modelled as `List Char`, JSON values by the `Json`
inductive below (numbers as rationals: exact for every literal the JSON
grammar admits), `JSON.parse` by a fuel-indexed recursive-descent parser of
the JSON grammar, and the non-greedy regex match for a brace-delimited
substring by `extractBrace`.  Fallible calls (the model generation call, the
weather fetch) are inputs of the handler functions: an `Except`/`Option`
argument standing for the awaited result.
-/

/-- JSON whitespace characters (the four the JSON grammar allows). -/
def isJsonWs (c : Char) : Bool :=
  c = ' ' || c = '\t' || c = '\n' || c = '\r'

/-- Drop leading JSON whitespace. -/
def skipWs : List Char → List Char
  | [] => []
  | c :: r => if isJsonWs c then skipWs r else c :: r

/-- JavaScript string values decoded from JSON, and the values the server
builds from them.  Numbers are rationals: every numeric literal of the JSON
grammar denotes a rational, and none of the claims depends on binary
floating-point rounding of the decoded value. -/
inductive Json where
  | null
  | bool (b : Bool)
  | num (q : Rat)
  | str (s : List Char)
  | arr (elems : List Json)
  | obj (members : List (String × Json))

/-- JavaScript truthiness of a JSON-decoded value (`null`, `false`, `0` and
the empty string are falsy; arrays and objects are truthy). -/
def truthy : Json → Bool
  | .null => false
  | .bool b => b
  | .num q => q ≠ 0
  | .str s => s ≠ []
  | .arr _ => true
  | .obj _ => true

/-- Truthiness of an optional value (`none` stands for JS `undefined`). -/
def truthyOpt : Option Json → Bool
  | none => false
  | some v => truthy v

/-- Whether a value is a JSON object. -/
def isObjJ : Json → Bool
  | .obj _ => true
  | _ => false

mutual

/-- Whether a value is, or contains anywhere inside it, a JSON object —
equivalently, whether its serialisations contain a brace-delimited
object.  Member values of an object are objects themselves, so only
arrays need recursion. -/
def hasObj : Json → Bool
  | .obj _ => true
  | .arr vs => hasObjArr vs
  | _ => false

/-- Whether some element of a JSON array contains an object. -/
def hasObjArr : List Json → Bool
  | [] => false
  | v :: vs => hasObj v || hasObjArr vs

end

/-- Whether a value is a JSON object one of whose member values is, or
contains (at any depth, also inside arrays), an object — its
serialisations contain a nested brace-delimited object. -/
def isNestedObj : Json → Bool
  | .obj ms => ms.any (fun kv => hasObj kv.2)
  | _ => false

/-- Whether a value is a JSON number. -/
def isNumJ : Json → Bool
  | .num _ => true
  | _ => false

/-- Whether a value is a string (models `typeof v === 'string'`). -/
def isStrJ : Json → Bool
  | .str _ => true
  | _ => false

/-- JavaScript property access `v.k` for a decoded value: on an object the
last binding of the key wins (as `JSON.parse` keeps the last duplicate);
on any other value the named properties read `undefined` (`none`). -/
def getProp (v : Json) (k : String) : Option Json :=
  match v with
  | .obj m => (m.reverse.find? (fun kv => kv.1 = k)).map (fun kv => kv.2)
  | _ => none

/-- The value of a digit character. -/
def digitVal (c : Char) : Nat := c.toNat - 48

/-- Value of a digit string, most significant first. -/
def digitsVal (ds : List Char) : Nat :=
  ds.foldl (fun a c => a * 10 + digitVal c) 0

/-- Value of a hexadecimal digit, if any. -/
def hexVal (c : Char) : Option Nat :=
  if '0' ≤ c ∧ c ≤ '9' then some (c.toNat - 48)
  else if 'a' ≤ c ∧ c ≤ 'f' then some (c.toNat - 87)
  else if 'A' ≤ c ∧ c ≤ 'F' then some (c.toNat - 55)
  else none

/-- The character a short JSON escape denotes, if the escape is legal. -/
def escChar (c : Char) : Option Char :=
  if c = '"' then some '"'
  else if c = '\\' then some '\\'
  else if c = '/' then some '/'
  else if c = 'b' then some (Char.ofNat 8)
  else if c = 'f' then some (Char.ofNat 12)
  else if c = 'n' then some '\n'
  else if c = 'r' then some '\r'
  else if c = 't' then some '\t'
  else none

/-- Parse the body of a JSON string literal after its opening quote:
returns the decoded characters and the input after the closing quote.
Unescaped control characters are refused, as `JSON.parse` refuses them. -/
def parseStringBody : List Char → Option (List Char × List Char)
  | [] => none
  | c :: r =>
    if c = '"' then some ([], r)
    else if c = '\\' then
      match r with
      | [] => none
      | e :: r₁ =>
        if e = 'u' then
          match r₁ with
          | a :: b :: c₂ :: d :: r₂ =>
            match hexVal a, hexVal b, hexVal c₂, hexVal d with
            | some ha, some hb, some hc, some hd =>
              (parseStringBody r₂).map
                (fun p => (Char.ofNat (((ha * 16 + hb) * 16 + hc) * 16 + hd) :: p.1, p.2))
            | _, _, _, _ => none
          | _ => none
        else
          match escChar e with
          | some ce => (parseStringBody r₁).map (fun p => (ce :: p.1, p.2))
          | none => none
    else if c.toNat < 32 then none
    else (parseStringBody r).map (fun p => (c :: p.1, p.2))

/-- Parse the optional fraction part of a JSON number: its rational value
(`0` when no `.` follows) and the rest of the input. -/
def parseFracPart : List Char → Option (Rat × List Char)
  | [] => some (0, [])
  | c :: r =>
    if c = '.' then
      let ds := r.takeWhile Char.isDigit
      if ds = [] then none
      else some (((digitsVal ds : Int) : Rat) / ((10 : Rat) ^ ds.length),
                 r.dropWhile Char.isDigit)
    else some (0, c :: r)

/-- The optional sign at the head of an exponent: the sign value and the
rest. -/
def parseSign : List Char → Int × List Char
  | [] => (1, [])
  | d :: r => if d = '+' then (1, r) else if d = '-' then (-1, r) else (1, d :: r)

/-- Parse the optional exponent part of a JSON number: the integer exponent
(`0` when no `e`/`E` follows) and the rest of the input. -/
def parseExpPart : List Char → Option (Int × List Char)
  | [] => some (0, [])
  | c :: r =>
    if c = 'e' ∨ c = 'E' then
      let sr := parseSign r
      let ds := sr.2.takeWhile Char.isDigit
      if ds = [] then none
      else some (sr.1 * (digitsVal ds : Int), sr.2.dropWhile Char.isDigit)
    else some (0, c :: r)

/-- Scale a mantissa by a signed power of ten. -/
def applyExp (m : Rat) (e : Int) : Rat :=
  if 0 ≤ e then m * (10 : Rat) ^ e.toNat else m / (10 : Rat) ^ (-e).toNat

/-- The optional leading minus of a JSON number: whether it is present,
and the rest. -/
def parseNeg : List Char → Bool × List Char
  | [] => (false, [])
  | c :: r => if c = '-' then (true, r) else (false, c :: r)

/-- Parse a JSON number (sign, integer part with the leading-zero rule,
optional fraction, optional exponent): value and rest of input. -/
def parseNumber (cs : List Char) : Option (Rat × List Char) :=
  match (parseNeg cs).2 with
  | [] => none
  | c :: tl =>
    if c.isDigit then
      let ir : List Char × List Char :=
        if c = '0' then ([c], tl)
        else ((c :: tl).takeWhile Char.isDigit, (c :: tl).dropWhile Char.isDigit)
      match parseFracPart ir.2 with
      | none => none
      | some (f, r₂) =>
        match parseExpPart r₂ with
        | none => none
        | some (e, r₃) =>
          let base : Rat := ((digitsVal ir.1 : Int) : Rat) + f
          some (applyExp (if (parseNeg cs).1 then -base else base) e, r₃)
    else none

mutual

/-- Recursive-descent parser for a JSON value at the head of the input
(no leading whitespace): the value and the unconsumed rest.  `fuel`
dominates the recursion depth; `fuel = length + 1` suffices for any
input, since every recursive call follows the consumption of at least
one delimiter character (amortised over matching brackets). -/
def parseVal : Nat → List Char → Option (Json × List Char)
  | 0, _ => none
  | fuel + 1, cs =>
    match cs with
    | [] => none
    | c :: r =>
      if c = '{' then
        match skipWs r with
        | '}' :: rest => some (.obj [], rest)
        | r₁ => (parseMembers fuel r₁).map (fun p => (.obj p.1, p.2))
      else if c = '[' then
        match skipWs r with
        | ']' :: rest => some (.arr [], rest)
        | r₁ => (parseElems fuel r₁).map (fun p => (.arr p.1, p.2))
      else if c = '"' then
        (parseStringBody r).map (fun p => (.str p.1, p.2))
      else if c = 't' then
        match r with
        | 'r' :: 'u' :: 'e' :: rest => some (.bool true, rest)
        | _ => none
      else if c = 'f' then
        match r with
        | 'a' :: 'l' :: 's' :: 'e' :: rest => some (.bool false, rest)
        | _ => none
      else if c = 'n' then
        match r with
        | 'u' :: 'l' :: 'l' :: rest => some (.null, rest)
        | _ => none
      else if c = '-' ∨ c.isDigit then
        (parseNumber (c :: r)).map (fun p => (.num p.1, p.2))
      else none

/-- Parse the members of a JSON object from the first key (after `{` and
whitespace) through the closing `}`; the `}` is consumed. -/
def parseMembers : Nat → List Char → Option (List (String × Json) × List Char)
  | 0, _ => none
  | fuel + 1, cs =>
    match cs with
    | [] => none
    | c :: r =>
      if c = '"' then
        match parseStringBody r with
        | none => none
        | some (k, r₁) =>
          match skipWs r₁ with
          | [] => none
          | c₂ :: r₂ =>
            if c₂ = ':' then
              match parseVal fuel (skipWs r₂) with
              | none => none
              | some (v, r₃) =>
                match skipWs r₃ with
                | [] => none
                | c₃ :: r₄ =>
                  if c₃ = ',' then
                    match parseMembers fuel (skipWs r₄) with
                    | some (ms, r₅) => some ((⟨k⟩, v) :: ms, r₅)
                    | none => none
                  else if c₃ = '}' then some ([(⟨k⟩, v)], r₄)
                  else none
            else none
      else none

/-- Parse the elements of a JSON array from the first element (after `[`
and whitespace) through the closing `]`; the `]` is consumed. -/
def parseElems : Nat → List Char → Option (List Json × List Char)
  | 0, _ => none
  | fuel + 1, cs =>
    match parseVal fuel cs with
    | none => none
    | some (v, r₁) =>
      match skipWs r₁ with
      | [] => none
      | c :: r₂ =>
        if c = ',' then
          match parseElems fuel (skipWs r₂) with
          | some (vs, r₃) => some (v :: vs, r₃)
          | none => none
        else if c = ']' then some ([v], r₂)
        else none

end

/-- `JSON.parse` on a whole string: the input must be exactly one JSON
value (the strings the server decodes always start with `{` and end with
`}`, so surrounding whitespace never arises). -/
def jsonDecode (cs : List Char) : Option Json :=
  match parseVal (cs.length + 1) cs with
  | some (v, []) => some v
  | _ => none

/-- The characters `String.prototype.trim` removes (the common whitespace
set; the server only ever trims model output). -/
def isJsWs (c : Char) : Bool :=
  c = ' ' || c = '\t' || c = '\n' || c = '\r' ||
  c = Char.ofNat 11 || c = Char.ofNat 12 || c = Char.ofNat 160 || c = Char.ofNat 65279

/-- Remove leading JS whitespace. -/
def jsTrimLeft (cs : List Char) : List Char := cs.dropWhile isJsWs

/-- Remove trailing JS whitespace. -/
def jsTrimRight (cs : List Char) : List Char := (jsTrimLeft cs.reverse).reverse

/-- `text.trim()`. -/
def jsTrim (cs : List Char) : List Char := jsTrimRight (jsTrimLeft cs)

/-- The prefix of the input up to and including its first `}` (the whole
input when it has no `}`). -/
def takeThroughBrace : List Char → List Char
  | [] => []
  | c :: r => if c = '}' then [c] else c :: takeThroughBrace r

/-- The match of the non-greedy regex `\x7b[\s\S]*?\x7d` (as in
`text.match(/\x7b[\s\S]*?\x7d/)`): the leftmost-starting, shortest
substring from a `{` to a `}`.  It runs from the first `{` of the text to
the first `}` after it; there is no match when no `}` follows a `{`. -/
def extractBrace : List Char → Option (List Char)
  | [] => none
  | c :: r =>
    if c = '{' then
      if r.contains '}' then some ('{' :: takeThroughBrace r) else none
    else extractBrace r

/-- The reminder record `/api/parse-reminder` returns.  The fields keep the
JavaScript values of `parsed.f || default` — a truthy decoded field is
passed through whatever its type. -/
structure ReminderOut where
  isReminder : Json
  task : Json
  minutesFromNow : Json
  recurring : Json
  intervalMinutes : Json

/-- The all-default ("not a reminder") record. -/
def defaultReminder : ReminderOut :=
  { isReminder := .bool false
    task := .str []
    minutesFromNow := .num 0
    recurring := .bool false
    intervalMinutes := .num 0 }

/-- Coalesce a decoded field as `parsed.f || default` does: a missing or
falsy field becomes the default. -/
def jsOrD (v : Option Json) (d : Json) : Json :=
  match v with
  | some w => if truthy w then w else d
  | none => d

/-- The record built from the decoded value (part_000 lines 245–251):
each field independently defaulted when absent or falsy. -/
def coerceReminder (v : Json) : ReminderOut :=
  { isReminder := jsOrD (getProp v "isReminder") (.bool false)
    task := jsOrD (getProp v "task") (.str [])
    minutesFromNow := jsOrD (getProp v "minutesFromNow") (.num 0)
    recurring := jsOrD (getProp v "recurring") (.bool false)
    intervalMinutes := jsOrD (getProp v "intervalMinutes") (.num 0) }

/-- Body of a `/api/parse-reminder` response: the reminder record on
success, an error payload otherwise. -/
inductive ReminderBody where
  | record (r : ReminderOut)
  | err (msg : List Char)

/-- The `POST /api/parse-reminder` handler of part_000 (lines 209–261) as a
function of the request and of the awaited generation result: HTTP status
and body.  `modelOk` is whether the model initialised, `message` the body
field, `gen` the result of `model.generateContent` (`Except.error` = the
call threw, carrying `e.message`). -/
def parseReminder (modelOk : Bool) (message : Option Json)
    (gen : Except (List Char) (List Char)) : Nat × ReminderBody :=
  if ¬ modelOk then (503, .err ("AI Offline").toList)
  else if ¬ truthyOpt message then (400, .err ("No message").toList)
  else
    match gen with
    | .error e => (500, .err e)
    | .ok text =>
      let t := jsTrim text
      match extractBrace t with
      | none => (200, .record defaultReminder)
      | some s =>
        match jsonDecode s with
        | none => (200, .record defaultReminder)
        | some v => (200, .record (coerceReminder v))

/-- Decidable substring test: `hay.includes(pat)` of JavaScript. -/
def containsSub (pat hay : List Char) : Bool :=
  (List.range (hay.length + 1)).any (fun i => pat.isPrefixOf (hay.drop i))

/-- `String.prototype.toLowerCase` on the ASCII range (the weather keywords
and error phrases the server matches are all ASCII). -/
def jsToLower (c : Char) : Char :=
  if 'A' ≤ c ∧ c ≤ 'Z' then Char.ofNat (c.toNat + 32) else c

/-- The keyword list of `isWeatherQuestion` (part_000 line 76). -/
def weatherKeywords : List (List Char) :=
  [("weather").toList, ("temperature").toList, ("temp").toList,
   ("rain").toList, ("snow").toList, ("sunny").toList, ("cloudy").toList,
   ("wind").toList, ("cold").toList, ("hot").toList, ("warm").toList,
   ("outside").toList, ("jacket").toList, ("umbrella").toList,
   ("forecast").toList, ("humid").toList]

/-- `isWeatherQuestion` of part_000: some keyword occurs in the lowercased
message. -/
def isWeatherQuestion (msg : List Char) : Bool :=
  weatherKeywords.any (fun k => containsSub k (msg.map jsToLower))

/-- `Math.round`: round half towards positive infinity. -/
def jsRound (q : Rat) : Int := ⌊q + 1 / 2⌋

/-- The rounded weather snapshot the server caches and formats. -/
structure WeatherInfo where
  city : List Char
  temp : Int
  feels : Int
  desc : List Char
  humidity : Rat
  wind : Int

/-- The fields of the provider's JSON reply that `getWeather` reads. -/
structure RawWeather where
  name : List Char
  temp : Rat
  feels_like : Rat
  desc : List Char
  humidity : Rat
  wind_speed : Rat

/-- The snapshot built from a fetched reply (part_000 lines 95–102):
temperature, feel and wind rounded to integers. -/
def roundWeather (d : RawWeather) : WeatherInfo :=
  { city := d.name
    temp := jsRound d.temp
    feels := jsRound d.feels_like
    desc := d.desc
    humidity := d.humidity
    wind := jsRound d.wind_speed }

/-- The single-slot weather cache `\x7b data, timestamp \x7d`. -/
structure WCache where
  data : Option WeatherInfo
  timestamp : Int

/-- `getWeather` of part_000 (lines 80–110) as a function of the cache
state, the clock and the awaited fetch result (`none` = `!res.ok` or a
thrown fetch error).  Returns the result, the new cache and whether a
live fetch was performed.  The requested `city` is ignored by the cache
check. -/
def getWeather (key : Bool) (cache : WCache) (now : Int) (city : List Char)
    (fetch : Option RawWeather) : Option WeatherInfo × WCache × Bool :=
  if ¬ key then (none, cache, false)
  else
    match cache.data with
    | some d =>
      if now - cache.timestamp < 600000 then (some d, cache, false)
      else
        match fetch with
        | none => (none, cache, true)
        | some raw => ((some (roundWeather raw)), ⟨some (roundWeather raw), now⟩, true)
    | none =>
      match fetch with
      | none => (none, cache, true)
      | some raw => ((some (roundWeather raw)), ⟨some (roundWeather raw), now⟩, true)

/-- `toString` of an integer (JS renders integral numbers this way). -/
def charsOfInt (i : Int) : List Char := (toString i).toList

/-- Decimal rendering of a rational for template interpolation.  Integers
render exactly as JS does; a terminating decimal renders with its minimal
digits (as JS does for short decimals); other values fall back to the
rational's own print form (never produced by the weather provider). -/
def charsOfRat (q : Rat) : List Char :=
  if q.den = 1 then (toString q.num).toList
  else
    match (List.range 400).find? (fun k => (10 : Nat) ^ k % q.den = 0) with
    | some k =>
      let scaled : Int := q.num * (((10 : Nat) ^ k / q.den : Nat) : Int)
      let s := (toString scaled.natAbs).toList
      let s := if s.length ≤ k then List.replicate (k + 1 - s.length) '0' ++ s else s
      (if q.num < 0 then [('-' : Char)] else []) ++
        s.take (s.length - k) ++ [('.' : Char)] ++ s.drop (s.length - k)
    | none => (toString q).toList

/-- `formatWeather` of part_000 (lines 112–115): the bracketed weather
annotation, empty for a null snapshot. -/
def formatWeather (w : Option WeatherInfo) : List Char :=
  match w with
  | none => []
  | some w =>
    ("\n[Weather: ").toList ++ charsOfInt w.temp ++ ("°F (feels ").toList ++
    charsOfInt w.feels ++ ("°F), ").toList ++ w.desc ++ (", humidity ").toList ++
    charsOfRat w.humidity ++ ("%, wind ").toList ++ charsOfInt w.wind ++
    ("mph in ").toList ++ w.city ++ ("]").toList

/-- A conversation turn as pushed on the in-memory history: the role and
the `parts[0].text` value (a JS value; the v2.0.0 and part_002 versions
push the raw request body field). -/
inductive Role where
  | user
  | model
deriving DecidableEq

/-- One history entry. -/
structure Turn where
  role : Role
  text : Json

/-- The last `n` entries of a list (`slice(-n)` on a list longer than `n`). -/
def lastN (n : Nat) (l : List α) : List α := l.drop (l.length - n)

/-- `e.message?.includes(p)`: whether a thrown error's optional message
text contains the phrase. -/
def errHas (e : Option (List Char)) (p : List Char) : Bool :=
  match e with
  | some em => containsSub p em
  | none => false

/-- The optional time annotation of the v4.2.0 chat handler (lines
155–157): appended only for a truthy `clientTime` body field. -/
def timeSeg (clientTime : Option (List Char)) : List Char :=
  match clientTime with
  | some t => if t = [] then [] else ("\n[Current time: ").toList ++ t ++ ("]").toList
  | none => []

/-- Response of the v4.2.0 chat handler: HTTP status, the optional `error`
and `response` body fields, the string passed to `sendMessage` (`none` when
the model was never invoked), and the new history and weather-cache
state. -/
structure ChatOut420 where
  status : Nat
  error : Option (List Char)
  response : Option (List Char)
  prompt : Option (List Char)
  history : List Turn
  wcache : WCache

/-- `POST /api/chat` of part_000 v4.2.0 "Always Listening" (lines 137–206).
Inputs: whether the model initialised, whether the weather key is set, the
clock, the awaited weather fetch result, the `message` and `clientTime`
body fields, the history and cache state, and the awaited
`chat.sendMessage` result (`Except.error` carries the thrown error's
optional `.message`). -/
def chatV420 (modelOk weatherKey : Bool) (now : Int) (fetch : Option RawWeather)
    (message : Option Json) (clientTime : Option (List Char))
    (history : List Turn) (wcache : WCache)
    (gen : Except (Option (List Char)) (List Char)) : ChatOut420 :=
  if ¬ modelOk then
    ⟨503, some ("AI Offline - Model not initialized").toList, none, none, history, wcache⟩
  else
    match message with
    | some (.str m) =>
      if m = [] then
        ⟨400, some ("No message or invalid format").toList, none, none, history, wcache⟩
      else
        let wq := isWeatherQuestion m
        let wres := getWeather weatherKey wcache now ("Nashville").toList fetch
        let wc' := if wq then wres.2.1 else wcache
        let contextMsg :=
          m ++ timeSeg clientTime ++ (if wq then formatWeather wres.1 else [])
        match gen with
        | .ok text =>
          let h := history ++ [⟨.user, .str m⟩, ⟨.model, .str text⟩]
          ⟨200, none, some text, some contextMsg,
            if h.length > 8 then h.drop (h.length - 8) else h, wc'⟩
        | .error e =>
          if errHas e ("429").toList || errHas e ("quota").toList || errHas e ("rate").toList then
            ⟨429, some ("Rate limited - please wait a moment").toList,
              some ("I need a moment to rest. Please try again in a few seconds.").toList,
              some contextMsg, history, wc'⟩
          else if errHas e ("API key").toList || errHas e ("authentication").toList then
            ⟨503, some ("API key issue").toList,
              some ("I'm having trouble connecting. Please check my configuration.").toList,
              some contextMsg, history, wc'⟩
          else
            ⟨500, e, some ("Something went wrong. Let me try to reconnect...").toList,
              some contextMsg, history, wc'⟩
    | _ => ⟨400, some ("No message or invalid format").toList, none, none, history, wcache⟩

/-- Response of the other chat handlers: HTTP status, the optional `error`,
`response` and `details`/`diagnostics` body fields, the value passed to
`sendMessage` (`none` = model never invoked), and the new history. -/
structure ChatOut where
  status : Nat
  error : Option (List Char)
  response : Option (List Char)
  details : Option (Option (List Char))
  prompt : Option Json
  history : List Turn

/-- `POST /api/chat` of the v2.0.0 "Diagnostic Mode" version (server.js
lines 99–128).  The guard is only `if (!message)`: truthiness, no type
check; `sendMessage(message)` receives the raw body value. -/
def chatV200 (modelOk : Bool) (message : Option Json) (history : List Turn)
    (gen : Except (Option (List Char)) (List Char)) : ChatOut :=
  match message with
  | some v =>
    if ¬ truthy v then ⟨400, some ("No message").toList, none, none, none, history⟩
    else if ¬ modelOk then
      ⟨503, some ("AI not initialized").toList, none, none, none, history⟩
    else
      match gen with
      | .ok text =>
        let h := history ++ [⟨.user, v⟩, ⟨.model, .str text⟩]
        ⟨200, none, some text, none, some v,
          if h.length > 10 then h.drop (h.length - 10) else h⟩
      | .error e =>
        ⟨500, some ("Chat failed").toList, none, some e, some v, history⟩
  | none => ⟨400, some ("No message").toList, none, none, none, history⟩

/-- `POST /api/chat` of the Phase 4/7 version (server.js lines 257–325).
The contextual message prepends the server-side time string; the user turn
is pushed and the history trimmed to 20 entries *before* the model call,
the model turn pushed after it. -/
def chatP47 (modelOk : Bool) (timeCtx : List Char) (message : Option Json)
    (history : List Turn)
    (gen : Except (Option (List Char)) (List Char)) : ChatOut :=
  match message with
  | some (.str m) =>
    if m = [] then ⟨400, some ("Message is required").toList, none, none, none, history⟩
    else if ¬ modelOk then
      ⟨503, some ("AI not configured").toList,
        some ("Zen is not yet awakened. Please configure the GEMINI_API_KEY in Railway environment variables.").toList,
        none, none, history⟩
    else
      let ctx := ("[").toList ++ timeCtx ++ ("]\n\nUser: ").toList ++ m
      let h₁ := history ++ [⟨.user, .str ctx⟩]
      let h₂ := if h₁.length > 20 then h₁.drop (h₁.length - 20) else h₁
      match gen with
      | .ok text =>
        ⟨200, none, some text, none, some (.str ctx), h₂ ++ [⟨.model, .str text⟩]⟩
      | .error e =>
        ⟨500, some ("Failed to get response").toList, none, some e, some (.str ctx), h₂⟩
  | _ => ⟨400, some ("Message is required").toList, none, none, none, history⟩

/-- `POST /api/chat` of the part_002 (Feb 2026) version (lines 90–124):
truthiness-only guard, raw `message` forwarded, both turns pushed after the
model call, history trimmed to 12. -/
def chatP002 (modelOk : Bool) (message : Option Json) (history : List Turn)
    (gen : Except (Option (List Char)) (List Char)) : ChatOut :=
  match message with
  | some v =>
    if ¬ truthy v then ⟨400, some ("No message").toList, none, none, none, history⟩
    else if ¬ modelOk then
      ⟨503, some ("AI currently unavailable").toList, none, none, none, history⟩
    else
      match gen with
      | .ok text =>
        let h := history ++ [⟨.user, v⟩, ⟨.model, .str text⟩]
        ⟨200, none, some text, none, some v,
          if h.length > 12 then h.drop (h.length - 12) else h⟩
      | .error e =>
        ⟨500, some ("Zen is having a moment of silence.").toList, none, some e, some v, history⟩
  | none => ⟨400, some ("No message").toList, none, none, none, history⟩

/-- `POST /api/chat` of the part_001 (Railway) version (lines 88–124):
truthiness-only guard, then a 503 carrying an in-character `response` when
the model is missing; the user turn is pushed and the history trimmed to
20 entries *before* the model call, the model turn pushed after it.
`timeCtx` is the server-side time string and `msgStr` the template-literal
rendering of the interpolated body value (for string messages, the string
itself). -/
def chatP001 (modelOk : Bool) (timeCtx msgStr : List Char) (message : Option Json)
    (history : List Turn)
    (gen : Except (Option (List Char)) (List Char)) : ChatOut :=
  match message with
  | some v =>
    if ¬ truthy v then ⟨400, some ("Message is required").toList, none, none, none, history⟩
    else if ¬ modelOk then
      ⟨503, some ("AI not configured").toList,
        some ("Zen is currently resting. Please check the API key configuration.").toList,
        none, none, history⟩
    else
      let ctx := ("[").toList ++ timeCtx ++ ("]\n\nUser: ").toList ++ msgStr
      let h₁ := history ++ [⟨.user, .str ctx⟩]
      let h₂ := if h₁.length > 20 then h₁.drop (h₁.length - 20) else h₁
      match gen with
      | .ok text =>
        ⟨200, none, some text, none, some (.str ctx), h₂ ++ [⟨.model, .str text⟩]⟩
      | .error e =>
        ⟨500, some ("Failed to get response").toList, none, none, some (.str ctx), h₂⟩
  | none => ⟨400, some ("Message is required").toList, none, none, none, history⟩

/-- `GET /api/health` of part_000 v4.2.0 (lines 117–127): `status` and the
`active` flag. -/
structure HealthV420 where
  status : List Char
  active : Bool

/-- part_000 health: degraded exactly when the model is not initialised. -/
def healthV420 (modelOk : Bool) : HealthV420 :=
  ⟨if modelOk then ("ok").toList else ("degraded").toList, modelOk⟩

/-- `GET /api/health` of v2.0.0 (server.js lines 90–97): `status` and
`aiActive`. -/
structure HealthV200 where
  status : List Char
  aiActive : Bool

/-- v2.0.0 health: the status field is the constant `'ok'`; only the
`aiActive` flag reflects the model. -/
def healthV200 (modelOk : Bool) : HealthV200 :=
  ⟨("ok").toList, modelOk⟩

/-- `GET /api/health` of the Phase 4/7 version (server.js lines 244–254). -/
structure HealthP47 where
  status : List Char
  aiEnabled : Bool

/-- Phase 4/7 health: degraded exactly when the provider key is missing. -/
def healthP47 (apiKeyMissing : Bool) : HealthP47 :=
  ⟨if apiKeyMissing then ("degraded").toList else ("ok").toList, !apiKeyMissing⟩

/-- part_001 health status (lines 80–86): degraded when the key is missing
or initialisation threw (both set `apiKeyMissing`). -/
def healthP001 (apiKeyMissing : Bool) : List Char :=
  if apiKeyMissing then ("degraded").toList else ("ok").toList

/-- `GET /api/health` of part_002 (lines 82–88). -/
structure HealthP002 where
  status : List Char
  aiActive : Bool

/-- part_002 health: the status field is the constant `'ok'`. -/
def healthP002 (modelOk : Bool) : HealthP002 :=
  ⟨("ok").toList, modelOk⟩

/-- The history after a sequence of successful `POST /api/chat` calls to
the v4.2.0 handler (model configured, weather off, no client time), each
call a pair (message, model reply). -/
def runChatsV420 (calls : List (List Char × List Char)) : List Turn :=
  calls.foldl
    (fun h c => (chatV420 true false 0 none (some (.str c.1)) none h ⟨none, 0⟩ (.ok c.2)).history)
    []

/-- The history after successful chat calls to the v2.0.0 handler. -/
def runChatsV200 (calls : List (List Char × List Char)) : List Turn :=
  calls.foldl (fun h c => (chatV200 true (some (.str c.1)) h (.ok c.2)).history) []

/-- The history after successful chat calls to the part_002 handler. -/
def runChatsP002 (calls : List (List Char × List Char)) : List Turn :=
  calls.foldl (fun h c => (chatP002 true (some (.str c.1)) h (.ok c.2)).history) []

/-- The history after successful chat calls to the Phase 4/7 handler with a
fixed server time string. -/
def runChatsP47 (timeCtx : List Char) (calls : List (List Char × List Char)) : List Turn :=
  calls.foldl (fun h c => (chatP47 true timeCtx (some (.str c.1)) h (.ok c.2)).history) []

/-- The full turn sequence of a call list, as the v4.2.0, v2.0.0 and
part_002 handlers push it (the raw message, then the reply). -/
def allTurns (calls : List (List Char × List Char)) : List Turn :=
  calls.flatMap (fun c => [⟨.user, .str c.1⟩, ⟨.model, .str c.2⟩])

/-- The full turn sequence of a call list as the Phase 4/7 handler pushes
it (the contextualised message, then the reply). -/
def allTurnsP47 (timeCtx : List Char) (calls : List (List Char × List Char)) : List Turn :=
  calls.flatMap
    (fun c => [⟨.user, .str (("[").toList ++ timeCtx ++ ("]\n\nUser: ").toList ++ c.1)⟩,
               ⟨.model, .str c.2⟩])

/-- A missing or falsy optional value coalesces to the default. -/
theorem jsOrD_default (o : Option Json) (d : Json)
    (h : o = none ∨ ∃ w, o = some w ∧ truthy w = false) : jsOrD o d = d := by
  rcases h with h | ⟨w, hw, ht⟩ <;> simp [jsOrD, *]

/-- A present truthy optional value is kept. -/
theorem jsOrD_keep (o : Option Json) (d w : Json) (h : o = some w)
    (ht : truthy w = true) : jsOrD o d = w := by
  simp [jsOrD, h, ht]

/-- C1: for every raw model response text in `POST /api/parse-reminder`, if
the generation call succeeded but the text has no brace-delimited substring
or the extracted substring fails JSON decoding, the endpoint returns the
all-default record with success status 200, never an error; a non-200
status arises only when the model is unavailable (503) or the generation
call itself threw (500). -/
theorem parse_reminder_unparsable_defaults (message : Option Json)
    (hmsg : truthyOpt message = true) :
    (∀ text : List Char,
       (extractBrace (jsTrim text) = none ∨
        ∃ s, extractBrace (jsTrim text) = some s ∧ jsonDecode s = none) →
       parseReminder true message (.ok text) = (200, .record defaultReminder))
    ∧ (∀ gen, (parseReminder true message gen).1 ≠ 200 → ∃ e, gen = .error e)
    ∧ (∀ e, (parseReminder true message (.error e)).1 = 500)
    ∧ (∀ gen, (parseReminder false message gen).1 = 503) := by
  refine ⟨?_, ?_, ?_, ?_⟩
  · intro text h
    rcases h with h | ⟨s, hs, hd⟩ <;> simp [parseReminder, hmsg, *]
  · intro gen hne
    cases gen with
    | error e => exact ⟨e, rfl⟩
    | ok text =>
      exfalso; apply hne
      simp only [parseReminder, hmsg]
      simp only [not_true, if_false, ite_false, Bool.not_true]
      split
      · rfl
      · split <;> rfl
  · intro e; simp [parseReminder, hmsg]
  · intro gen; simp [parseReminder]

theorem parse_reminder_unparsable_defaults_witness :
    parseReminder true (some (.str ("x").toList)) (.ok ("no braces").toList) =
      (200, .record defaultReminder) :=
  (parse_reminder_unparsable_defaults (some (.str ("x").toList)) rfl).1
    (("no braces").toList) (Or.inl rfl)

/-- C2: for every model response whose extracted brace substring decodes
successfully, the returned record carries all five fields, and each field
that is absent or falsy in the decoded object is independently replaced by
its zero value (`false`, the empty string, `0`, `false`, `0`), while a
truthy decoded field is passed through. -/
theorem parse_reminder_coerces_fields (message : Option Json)
    (hmsg : truthyOpt message = true) (text s : List Char) (v : Json)
    (hex : extractBrace (jsTrim text) = some s) (hdec : jsonDecode s = some v) :
    parseReminder true message (.ok text) = (200, .record (coerceReminder v))
    ∧ ((getProp v "isReminder" = none ∨
        ∃ w, getProp v "isReminder" = some w ∧ truthy w = false) →
        (coerceReminder v).isReminder = .bool false)
    ∧ (∀ w, getProp v "isReminder" = some w → truthy w = true →
        (coerceReminder v).isReminder = w)
    ∧ ((getProp v "task" = none ∨ ∃ w, getProp v "task" = some w ∧ truthy w = false) →
        (coerceReminder v).task = .str [])
    ∧ (∀ w, getProp v "task" = some w → truthy w = true → (coerceReminder v).task = w)
    ∧ ((getProp v "minutesFromNow" = none ∨
        ∃ w, getProp v "minutesFromNow" = some w ∧ truthy w = false) →
        (coerceReminder v).minutesFromNow = .num 0)
    ∧ (∀ w, getProp v "minutesFromNow" = some w → truthy w = true →
        (coerceReminder v).minutesFromNow = w)
    ∧ ((getProp v "recurring" = none ∨
        ∃ w, getProp v "recurring" = some w ∧ truthy w = false) →
        (coerceReminder v).recurring = .bool false)
    ∧ (∀ w, getProp v "recurring" = some w → truthy w = true →
        (coerceReminder v).recurring = w)
    ∧ ((getProp v "intervalMinutes" = none ∨
        ∃ w, getProp v "intervalMinutes" = some w ∧ truthy w = false) →
        (coerceReminder v).intervalMinutes = .num 0)
    ∧ (∀ w, getProp v "intervalMinutes" = some w → truthy w = true →
        (coerceReminder v).intervalMinutes = w) := by
  refine ⟨by simp [parseReminder, hmsg, hex, hdec], ?_, ?_, ?_, ?_, ?_, ?_, ?_, ?_, ?_, ?_⟩
  · exact fun h => jsOrD_default _ _ h
  · exact fun w hw ht => jsOrD_keep _ _ _ hw ht
  · exact fun h => jsOrD_default _ _ h
  · exact fun w hw ht => jsOrD_keep _ _ _ hw ht
  · exact fun h => jsOrD_default _ _ h
  · exact fun w hw ht => jsOrD_keep _ _ _ hw ht
  · exact fun h => jsOrD_default _ _ h
  · exact fun w hw ht => jsOrD_keep _ _ _ hw ht
  · exact fun h => jsOrD_default _ _ h
  · exact fun w hw ht => jsOrD_keep _ _ _ hw ht

theorem parse_reminder_coerces_fields_witness :
    parseReminder true (some (.str ("r").toList))
        (.ok ("ans: \x7b\"isReminder\":true,\"task\":\"\"\x7d").toList) =
      (200, .record (coerceReminder (.obj [("isReminder", .bool true), ("task", .str [])])))
    ∧ (coerceReminder (.obj [("isReminder", .bool true), ("task", .str [])])).task = .str []
    ∧ (coerceReminder (.obj [("isReminder", .bool true), ("task", .str [])])).isReminder = .bool true
    ∧ (coerceReminder (.obj [("isReminder", .bool true), ("task", .str [])])).minutesFromNow = .num 0 := by
  have h := parse_reminder_coerces_fields (some (.str ("r").toList)) rfl
    (("ans: \x7b\"isReminder\":true,\"task\":\"\"\x7d").toList)
    (("\x7b\"isReminder\":true,\"task\":\"\"\x7d").toList)
    (.obj [("isReminder", .bool true), ("task", .str [])]) rfl rfl
  refine ⟨h.1, ?_, ?_, ?_⟩
  · exact h.2.2.2.1 (Or.inr ⟨.str [], rfl, rfl⟩)
  · exact h.2.2.1 (.bool true) rfl rfl
  · exact h.2.2.2.2.2.1 (Or.inl rfl)

/-- C10: in the part_000 v4.2.0 and server.js v2.0.0 chat handlers both
history turns are appended only after the model call returns: whenever the
model call throws (for any request shape and state), the conversation
history is exactly what it was before the request, and on success exactly
the two new turns are appended (then trimmed). -/
theorem chat_history_atomic :
    (∀ modelOk weatherKey now fetch message clientTime history wcache e,
      (chatV420 modelOk weatherKey now fetch message clientTime history wcache
        (.error e)).history = history)
    ∧ (∀ modelOk message history e,
      (chatV200 modelOk message history (.error e)).history = history)
    ∧ (∀ weatherKey now fetch m clientTime history wcache text, m ≠ [] →
      (chatV420 true weatherKey now fetch (some (.str m)) clientTime history wcache
        (.ok text)).history =
        (let h := history ++ [⟨.user, .str m⟩, ⟨.model, .str text⟩]
         if h.length > 8 then h.drop (h.length - 8) else h))
    ∧ (∀ v history text, truthy v = true →
      (chatV200 true (some v) history (.ok text)).history =
        (let h := history ++ [⟨.user, v⟩, ⟨.model, .str text⟩]
         if h.length > 10 then h.drop (h.length - 10) else h)) := by
  refine ⟨?_, ?_, ?_, ?_⟩
  · intro modelOk weatherKey now fetch message clientTime history wcache e
    unfold chatV420
    repeat' (first | rfl | split)
    all_goals (exfalso; simp_all)
  · intro modelOk message history e
    unfold chatV200
    repeat' (first | rfl | split)
    all_goals (exfalso; simp_all)
  · intro weatherKey now fetch m clientTime history wcache text hm
    simp [chatV420, hm]
  · intro v history text hv
    simp [chatV200, hv]

theorem chat_history_atomic_witness :
    ([] : List Char) ≠ [('h' : Char)] ∧
    (chatV420 true false 0 none (some (.str [('h' : Char)])) none [] ⟨none, 0⟩
      (.ok [('r' : Char)])).history = [⟨.user, .str [('h' : Char)]⟩, ⟨.model, .str [('r' : Char)]⟩] := by
  constructor
  · decide
  · have h := chat_history_atomic.2.2.1 false 0 none [('h' : Char)] none [] ⟨none, 0⟩
      [('r' : Char)] (by decide)
    simpa using h

/-- C4 (amended): in the versions that check `typeof message` (part_000
v4.2.0 and Phase 4/7), an empty or non-string `message` yields HTTP 400
and the model is never invoked; in v2.0.0 and part_002 the guard is only
truthiness, so a falsy `message` (including the empty string) yields 400
without invoking the model, but a truthy non-string message is passed on
to the model. -/
theorem chat_message_guards :
    (∀ weatherKey now fetch message clientTime history wcache gen,
      (∀ m, message = some (.str m) → m = []) →
      (chatV420 true weatherKey now fetch message clientTime history wcache gen).status = 400 ∧
      (chatV420 true weatherKey now fetch message clientTime history wcache gen).prompt = none)
    ∧ (∀ modelOk timeCtx message history gen,
      (∀ m, message = some (.str m) → m = []) →
      (chatP47 modelOk timeCtx message history gen).status = 400 ∧
      (chatP47 modelOk timeCtx message history gen).prompt = none)
    ∧ (∀ modelOk message history gen, truthyOpt message = false →
      (chatV200 modelOk message history gen).status = 400 ∧
      (chatV200 modelOk message history gen).prompt = none)
    ∧ (∀ modelOk message history gen, truthyOpt message = false →
      (chatP002 modelOk message history gen).status = 400 ∧
      (chatP002 modelOk message history gen).prompt = none)
    ∧ (∀ v history gen, truthy v = true → isStrJ v = false →
      (chatV200 true (some v) history gen).prompt = some v)
    ∧ (∀ v history gen, truthy v = true → isStrJ v = false →
      (chatP002 true (some v) history gen).prompt = some v) := by
  refine ⟨?_, ?_, ?_, ?_, ?_, ?_⟩
  · intro weatherKey now fetch message clientTime history wcache gen hbad
    cases message with
    | none => exact ⟨rfl, rfl⟩
    | some v =>
      cases v with
      | str m =>
        have : m = [] := hbad m rfl
        subst this
        exact ⟨by simp [chatV420], by simp [chatV420]⟩
      | null => exact ⟨rfl, rfl⟩
      | bool b => exact ⟨rfl, rfl⟩
      | num q => exact ⟨rfl, rfl⟩
      | arr l => exact ⟨rfl, rfl⟩
      | obj m => exact ⟨rfl, rfl⟩
  · intro modelOk timeCtx message history gen hbad
    cases message with
    | none => exact ⟨rfl, rfl⟩
    | some v =>
      cases v with
      | str m =>
        have : m = [] := hbad m rfl
        subst this
        exact ⟨by simp [chatP47], by simp [chatP47]⟩
      | null => exact ⟨rfl, rfl⟩
      | bool b => exact ⟨rfl, rfl⟩
      | num q => exact ⟨rfl, rfl⟩
      | arr l => exact ⟨rfl, rfl⟩
      | obj m => exact ⟨rfl, rfl⟩
  · intro modelOk message history gen hbad
    cases message with
    | none => exact ⟨rfl, rfl⟩
    | some v =>
      simp only [truthyOpt] at hbad
      exact ⟨by simp [chatV200, hbad], by simp [chatV200, hbad]⟩
  · intro modelOk message history gen hbad
    cases message with
    | none => exact ⟨rfl, rfl⟩
    | some v =>
      simp only [truthyOpt] at hbad
      exact ⟨by simp [chatP002, hbad], by simp [chatP002, hbad]⟩
  · intro v history gen hv _
    cases gen <;> simp [chatV200, hv]
  · intro v history gen hv _
    cases gen <;> simp [chatP002, hv]

/-- C4 counterexample: in the v2.0.0 handler a non-string message (the
number 5) is not rejected with 400 and the model is invoked, refuting the
claim as stated for that version. -/
theorem chat_nonstring_message_forwarded :
    ¬ ((chatV200 true (some (.num 5)) [] (.ok ("ok").toList)).status = 400) ∧
    ¬ ((chatV200 true (some (.num 5)) [] (.ok ("ok").toList)).prompt = none) := by
  constructor
  · intro h
    simp [chatV200, truthy] at h
  · intro h
    simp [chatV200, truthy] at h

theorem chat_message_guards_witness :
    (∀ m : List Char, (some (.num 0) : Option Json) = some (.str m) → m = []) ∧
    (chatV420 true false 0 none (some (.num 0)) none [] ⟨none, 0⟩
      (.ok ("r").toList)).status = 400 ∧
    (chatV200 true (some (.str [])) [] (.ok ("r").toList)).status = 400 := by
  refine ⟨?_, ?_, ?_⟩
  · intro m h
    cases h
  · exact (chat_message_guards.1 false 0 none (some (.num 0)) none [] ⟨none, 0⟩
      (.ok ("r").toList) (fun m h => by cases h)).1
  · exact (chat_message_guards.2.2.1 true (some (.str [])) [] (.ok ("r").toList) rfl).1

/-- C7 (amended): in the v4.2.0 handler, with no model configured the
response is 503 with only an `error` field (no in-character `response`
string); for an error thrown by the model call, a rate-limit phrase
(`429`, `quota`, `rate`) in the message yields 429, otherwise an auth
phrase (`API key`, `authentication`) yields 503, otherwise 500 with
`error` = the thrown message — each of the three thrown-error classes
carrying a soft in-character `response` string. -/
theorem chat_v420_error_taxonomy :
    (∀ weatherKey now fetch message clientTime history wcache gen,
      chatV420 false weatherKey now fetch message clientTime history wcache gen =
        ⟨503, some ("AI Offline - Model not initialized").toList, none, none, history, wcache⟩)
    ∧ (∀ weatherKey now fetch m clientTime history wcache e, m ≠ [] →
      (errHas e ("429").toList || errHas e ("quota").toList || errHas e ("rate").toList) = true →
      (chatV420 true weatherKey now fetch (some (.str m)) clientTime history wcache
        (.error e)).status = 429 ∧
      (chatV420 true weatherKey now fetch (some (.str m)) clientTime history wcache
        (.error e)).error = some ("Rate limited - please wait a moment").toList ∧
      (chatV420 true weatherKey now fetch (some (.str m)) clientTime history wcache
        (.error e)).response =
        some ("I need a moment to rest. Please try again in a few seconds.").toList)
    ∧ (∀ weatherKey now fetch m clientTime history wcache e, m ≠ [] →
      (errHas e ("429").toList || errHas e ("quota").toList || errHas e ("rate").toList) = false →
      (errHas e ("API key").toList || errHas e ("authentication").toList) = true →
      (chatV420 true weatherKey now fetch (some (.str m)) clientTime history wcache
        (.error e)).status = 503 ∧
      (chatV420 true weatherKey now fetch (some (.str m)) clientTime history wcache
        (.error e)).error = some ("API key issue").toList ∧
      (chatV420 true weatherKey now fetch (some (.str m)) clientTime history wcache
        (.error e)).response =
        some ("I'm having trouble connecting. Please check my configuration.").toList)
    ∧ (∀ weatherKey now fetch m clientTime history wcache e, m ≠ [] →
      (errHas e ("429").toList || errHas e ("quota").toList || errHas e ("rate").toList) = false →
      (errHas e ("API key").toList || errHas e ("authentication").toList) = false →
      (chatV420 true weatherKey now fetch (some (.str m)) clientTime history wcache
        (.error e)).status = 500 ∧
      (chatV420 true weatherKey now fetch (some (.str m)) clientTime history wcache
        (.error e)).error = e ∧
      (chatV420 true weatherKey now fetch (some (.str m)) clientTime history wcache
        (.error e)).response =
        some ("Something went wrong. Let me try to reconnect...").toList) := by
  refine ⟨?_, ?_, ?_, ?_⟩
  · intro weatherKey now fetch message clientTime history wcache gen
    rfl
  · intro weatherKey now fetch m clientTime history wcache e hm hr
    refine ⟨?_, ?_, ?_⟩ <;> (simp [chatV420, hm]; repeat' split; all_goals simp_all)
  · intro weatherKey now fetch m clientTime history wcache e hm hr ha
    refine ⟨?_, ?_, ?_⟩ <;> (simp [chatV420, hm]; repeat' split; all_goals simp_all)
  · intro weatherKey now fetch m clientTime history wcache e hm hr ha
    refine ⟨?_, ?_, ?_⟩ <;> (simp [chatV420, hm]; repeat' split; all_goals simp_all)

/-- C7 counterexample: the no-model 503 answer of the v4.2.0 chat handler
carries no `response` field, refuting the claim that each failure case
carries a soft in-character response string. -/
theorem chat_v420_no_model_has_no_response :
    (chatV420 false false 0 none (some (.str ("hi").toList)) none [] ⟨none, 0⟩
      (.ok ("r").toList)).status = 503 ∧
    (chatV420 false false 0 none (some (.str ("hi").toList)) none [] ⟨none, 0⟩
      (.ok ("r").toList)).response = none := ⟨rfl, rfl⟩

theorem chat_v420_error_taxonomy_witness :
    (([('x' : Char)] : List Char) ≠ []) ∧
    errHas (some ("quota exceeded").toList) ("quota").toList = true ∧
    (chatV420 true false 0 none (some (.str [('x' : Char)])) none [] ⟨none, 0⟩
      (.error (some ("quota exceeded").toList))).status = 429 ∧
    (chatV420 true false 0 none (some (.str [('x' : Char)])) none [] ⟨none, 0⟩
      (.error (some ("err 404").toList))).status = 500 := by
  refine ⟨by decide, by decide, ?_, ?_⟩
  · exact (chat_v420_error_taxonomy.2.1 false 0 none [('x' : Char)] none [] ⟨none, 0⟩
      (some ("quota exceeded").toList) (by decide) (by decide)).1
  · exact (chat_v420_error_taxonomy.2.2.2 false 0 none [('x' : Char)] none [] ⟨none, 0⟩
      (some ("err 404").toList) (by decide) (by decide) (by decide)).1

/-- C8 (amended): the v4.2.0, Phase 4/7 and part_001 versions report
health status `degraded` exactly when the model/key is missing, while the
v2.0.0 and part_002 versions always report status `ok` (only their
`aiActive` flag reflects the model); in every version — v4.2.0 chat and
parse-reminder, Phase 4/7, v2.0.0, part_002 and part_001 chat — the AI
endpoints return 503 when the model is not configured. -/
theorem health_degraded_and_503 :
    healthV420 false = ⟨("degraded").toList, false⟩
    ∧ healthV420 true = ⟨("ok").toList, true⟩
    ∧ healthP47 true = ⟨("degraded").toList, false⟩
    ∧ healthP47 false = ⟨("ok").toList, true⟩
    ∧ healthP001 true = ("degraded").toList
    ∧ healthP001 false = ("ok").toList
    ∧ (∀ modelOk, (healthV200 modelOk).status = ("ok").toList)
    ∧ (∀ modelOk, (healthP002 modelOk).status = ("ok").toList)
    ∧ (∀ weatherKey now fetch message clientTime history wcache gen,
        (chatV420 false weatherKey now fetch message clientTime history wcache gen).status = 503)
    ∧ (∀ message gen, (parseReminder false message gen).1 = 503)
    ∧ (∀ timeCtx m history gen, m ≠ [] →
        (chatP47 false timeCtx (some (.str m)) history gen).status = 503)
    ∧ (∀ v history gen, truthy v = true →
        (chatV200 false (some v) history gen).status = 503)
    ∧ (∀ v history gen, truthy v = true →
        (chatP002 false (some v) history gen).status = 503)
    ∧ (∀ timeCtx msgStr v history gen, truthy v = true →
        (chatP001 false timeCtx msgStr (some v) history gen).status = 503) := by
  refine ⟨rfl, rfl, rfl, rfl, rfl, rfl, fun _ => rfl, fun _ => rfl, fun _ _ _ _ _ _ _ _ => rfl,
    fun _ _ => rfl, ?_, ?_, ?_, ?_⟩
  · intro timeCtx m history gen hm
    simp [chatP47, hm]
  · intro v history gen hv
    simp [chatV200, hv]
  · intro v history gen hv
    simp [chatP002, hv]
  · intro timeCtx msgStr v history gen hv
    simp [chatP001, hv]

/-- C8 counterexample: with the model missing, the v2.0.0 and part_002
health endpoints still report status `ok`, not `degraded`, refuting the
claim for those versions. -/
theorem health_v200_always_ok :
    (healthV200 false).status = ("ok").toList ∧
    ¬ ((healthV200 false).status = ("degraded").toList) ∧
    (healthP002 false).status = ("ok").toList := by
  refine ⟨rfl, by decide, rfl⟩

theorem health_degraded_and_503_witness :
    (([('h' : Char)] : List Char) ≠ []) ∧
    (chatP47 false [] (some (.str [('h' : Char)])) [] (.ok ("r").toList)).status = 503 ∧
    (chatV200 false (some (.str [('h' : Char)])) [] (.ok ("r").toList)).status = 503 ∧
    truthy (.str [('h' : Char)]) = true ∧
    (chatP001 false [] [] (some (.str [('h' : Char)])) [] (.ok ("r").toList)).status = 503 := by
  refine ⟨by decide, ?_, ?_, by decide, ?_⟩
  · exact health_degraded_and_503.2.2.2.2.2.2.2.2.2.2.1 [] [('h' : Char)] [] (.ok ("r").toList)
      (by decide)
  · exact health_degraded_and_503.2.2.2.2.2.2.2.2.2.2.2.1 (.str [('h' : Char)]) [] (.ok ("r").toList)
      (by decide)
  · exact health_degraded_and_503.2.2.2.2.2.2.2.2.2.2.2.2.2 [] [] (.str [('h' : Char)]) []
      (.ok ("r").toList) (by decide)

/-- C5: with the weather key configured, a populated cache slot younger
than 10 minutes (600000 ms) is returned as-is with no fetch, whatever city
is requested; an absent or stale slot causes a live fetch, and on fetch
success temp/feels/wind are rounded to integers and the slot is replaced
by the new snapshot stamped with the current time. -/
theorem weather_cache_behaviour (cache : WCache) (now : Int) (city : List Char)
    (fetch : Option RawWeather) :
    (∀ d, cache.data = some d → now - cache.timestamp < 600000 →
      getWeather true cache now city fetch = (some d, cache, false))
    ∧ ((cache.data = none ∨ 600000 ≤ now - cache.timestamp) →
      (getWeather true cache now city fetch).2.2 = true ∧
      (∀ raw, fetch = some raw →
        getWeather true cache now city fetch =
          (some (roundWeather raw), ⟨some (roundWeather raw), now⟩, true) ∧
        (roundWeather raw).temp = jsRound raw.temp ∧
        (roundWeather raw).feels = jsRound raw.feels_like ∧
        (roundWeather raw).wind = jsRound raw.wind_speed)) := by
  constructor
  · intro d hd hlt
    simp [getWeather, hd, hlt]
  · intro h
    rcases h with h | h
    · constructor
      · simp [getWeather, h]
        cases fetch <;> simp
      · intro raw hraw
        refine ⟨by simp [getWeather, h, hraw], rfl, rfl, rfl⟩
    · have hnl : ¬ (now - cache.timestamp < 600000) := not_lt.mpr h
      constructor
      · cases hd : cache.data with
        | none => simp [getWeather, hd]; cases fetch <;> simp
        | some d => simp [getWeather, hd, hnl]; cases fetch <;> simp
      · intro raw hraw
        cases hd : cache.data with
        | none => refine ⟨by simp [getWeather, hd, hraw], rfl, rfl, rfl⟩
        | some d => refine ⟨by simp [getWeather, hd, hnl, hraw], rfl, rfl, rfl⟩

theorem weather_cache_behaviour_witness :
    ((⟨some ⟨("N").toList, 50, 49, ("clear").toList, 40, 5⟩, 1000⟩ : WCache).data =
      some ⟨("N").toList, 50, 49, ("clear").toList, 40, 5⟩) ∧
    ((1500 : Int) - 1000 < 600000) ∧
    getWeather true ⟨some ⟨("N").toList, 50, 49, ("clear").toList, 40, 5⟩, 1000⟩ 1500
        (("Paris").toList) none =
      (some ⟨("N").toList, 50, 49, ("clear").toList, 40, 5⟩,
       ⟨some ⟨("N").toList, 50, 49, ("clear").toList, 40, 5⟩, 1000⟩, false) ∧
    getWeather true ⟨none, 0⟩ 700000 (("N").toList)
        (some ⟨("N").toList, 50.4, 48.6, ("mist").toList, 40, 5.5⟩) =
      (some ⟨("N").toList, 50, 49, ("mist").toList, 40, 6⟩,
       ⟨some ⟨("N").toList, 50, 49, ("mist").toList, 40, 6⟩, 700000⟩, true) := by
  refine ⟨rfl, by decide, ?_, ?_⟩
  · exact (weather_cache_behaviour _ 1500 (("Paris").toList) none).1 _ rfl (by decide)
  · have h := ((weather_cache_behaviour ⟨none, 0⟩ 700000 (("N").toList)
      (some ⟨("N").toList, 50.4, 48.6, ("mist").toList, 40, 5.5⟩)).2 (Or.inl rfl)).2
      ⟨("N").toList, 50.4, 48.6, ("mist").toList, 40, 5.5⟩ rfl
    have heq := h.1
    convert heq using 2 <;> norm_num [roundWeather, jsRound]

theorem lastN_of_le (n : Nat) (l : List α) (h : l.length ≤ n) : lastN n l = l := by
  simp [lastN, Nat.sub_eq_zero_of_le h]

theorem lastN_suffix (n : Nat) (l : List α) : lastN n l <:+ l := List.drop_suffix _ _

theorem lastN_length_le (n : Nat) (l : List α) : (lastN n l).length ≤ n := by
  simp [lastN]
  omega

theorem lastN_append_lastN (n m : Nat) (hnm : n ≤ m) (l xs : List α) :
    lastN n (lastN m l ++ xs) = lastN n (l ++ xs) := by
  unfold lastN
  have h1 : List.drop (l.length - m) l ++ xs = List.drop (l.length - m) (l ++ xs) :=
    (List.drop_append_of_le_length (by omega)).symm
  rw [h1, List.drop_drop]
  congr 1
  simp [List.length_drop, List.length_append]
  omega

theorem trimIf_eq_lastN (cap : Nat) (l : List α) :
    (if l.length > cap then l.drop (l.length - cap) else l) = lastN cap l := by
  split
  · rfl
  · rw [lastN_of_le]
    omega

theorem allTurns_append (calls : List (List Char × List Char)) (c : List Char × List Char) :
    allTurns (calls ++ [c]) = allTurns calls ++ [⟨.user, .str c.1⟩, ⟨.model, .str c.2⟩] := by
  simp [allTurns]

theorem chatV420_ok_history (m r : List Char) (hm : m ≠ []) (h : List Turn)
    (weatherKey : Bool) (now : Int) (fetch : Option RawWeather)
    (clientTime : Option (List Char)) (wcache : WCache) :
    (chatV420 true weatherKey now fetch (some (.str m)) clientTime h wcache (.ok r)).history =
      lastN 8 (h ++ [⟨.user, .str m⟩, ⟨.model, .str r⟩]) := by
  rw [← trimIf_eq_lastN]
  simp [chatV420, hm]

theorem runChatsV420_eq (calls : List (List Char × List Char))
    (hne : ∀ c ∈ calls, c.1 ≠ []) :
    runChatsV420 calls = lastN 8 (allTurns calls) := by
  induction calls using List.reverseRecOn with
  | nil => rfl
  | append_singleton calls c ih =>
    have hc : c.1 ≠ [] := hne c (by simp)
    have hne' : ∀ c ∈ calls, c.1 ≠ [] := fun x hx => hne x (by simp [hx])
    unfold runChatsV420
    rw [List.foldl_append]
    show (chatV420 true false 0 none (some (.str c.1)) none (runChatsV420 calls) ⟨none, 0⟩
      (.ok c.2)).history = _
    rw [chatV420_ok_history c.1 c.2 hc, ih hne', allTurns_append,
      lastN_append_lastN 8 8 le_rfl]

theorem lastN_append_one (n : Nat) (l : List α) (x : α) :
    lastN (n + 1) (l ++ [x]) = lastN n l ++ [x] := by
  unfold lastN
  rw [List.length_append]
  simp only [List.length_singleton]
  rw [List.drop_append_of_le_length (by omega)]
  congr 2
  omega

theorem chatV200_ok_history (m r : List Char) (hm : m ≠ []) (h : List Turn) :
    (chatV200 true (some (.str m)) h (.ok r)).history =
      lastN 10 (h ++ [⟨.user, .str m⟩, ⟨.model, .str r⟩]) := by
  rw [← trimIf_eq_lastN]
  simp [chatV200, hm, truthy]

theorem chatP002_ok_history (m r : List Char) (hm : m ≠ []) (h : List Turn) :
    (chatP002 true (some (.str m)) h (.ok r)).history =
      lastN 12 (h ++ [⟨.user, .str m⟩, ⟨.model, .str r⟩]) := by
  rw [← trimIf_eq_lastN]
  simp [chatP002, hm, truthy]

theorem chatP47_ok_history (tc m r : List Char) (hm : m ≠ []) (h : List Turn) :
    (chatP47 true tc (some (.str m)) h (.ok r)).history =
      lastN 20 (h ++ [⟨.user, .str (("[").toList ++ tc ++ ("]\n\nUser: ").toList ++ m)⟩]) ++
        [⟨.model, .str r⟩] := by
  rw [← trimIf_eq_lastN]
  simp [chatP47, hm]

theorem runChatsV200_eq (calls : List (List Char × List Char))
    (hne : ∀ c ∈ calls, c.1 ≠ []) :
    runChatsV200 calls = lastN 10 (allTurns calls) := by
  induction calls using List.reverseRecOn with
  | nil => rfl
  | append_singleton calls c ih =>
    have hc : c.1 ≠ [] := hne c (by simp)
    have hne' : ∀ c ∈ calls, c.1 ≠ [] := fun x hx => hne x (by simp [hx])
    unfold runChatsV200
    rw [List.foldl_append]
    show (chatV200 true (some (.str c.1)) (runChatsV200 calls) (.ok c.2)).history = _
    rw [chatV200_ok_history c.1 c.2 hc, ih hne', allTurns_append,
      lastN_append_lastN 10 10 le_rfl]

theorem runChatsP002_eq (calls : List (List Char × List Char))
    (hne : ∀ c ∈ calls, c.1 ≠ []) :
    runChatsP002 calls = lastN 12 (allTurns calls) := by
  induction calls using List.reverseRecOn with
  | nil => rfl
  | append_singleton calls c ih =>
    have hc : c.1 ≠ [] := hne c (by simp)
    have hne' : ∀ c ∈ calls, c.1 ≠ [] := fun x hx => hne x (by simp [hx])
    unfold runChatsP002
    rw [List.foldl_append]
    show (chatP002 true (some (.str c.1)) (runChatsP002 calls) (.ok c.2)).history = _
    rw [chatP002_ok_history c.1 c.2 hc, ih hne', allTurns_append,
      lastN_append_lastN 12 12 le_rfl]

theorem allTurnsP47_append (tc : List Char) (calls : List (List Char × List Char))
    (c : List Char × List Char) :
    allTurnsP47 tc (calls ++ [c]) =
      allTurnsP47 tc calls ++
        [⟨.user, .str (("[").toList ++ tc ++ ("]\n\nUser: ").toList ++ c.1)⟩,
         ⟨.model, .str c.2⟩] := by
  simp [allTurnsP47]

theorem runChatsP47_eq (tc : List Char) (calls : List (List Char × List Char))
    (hne : ∀ c ∈ calls, c.1 ≠ []) :
    runChatsP47 tc calls = lastN 21 (allTurnsP47 tc calls) := by
  induction calls using List.reverseRecOn with
  | nil => rfl
  | append_singleton calls c ih =>
    have hc : c.1 ≠ [] := hne c (by simp)
    have hne' : ∀ c ∈ calls, c.1 ≠ [] := fun x hx => hne x (by simp [hx])
    unfold runChatsP47
    rw [List.foldl_append]
    show (chatP47 true tc (some (.str c.1)) (runChatsP47 tc calls) (.ok c.2)).history = _
    rw [chatP47_ok_history tc c.1 c.2 hc, ih hne', allTurnsP47_append]
    rw [lastN_append_lastN 20 21 (by omega)]
    conv_rhs =>
      rw [show allTurnsP47 tc calls ++
          [⟨.user, .str (("[").toList ++ tc ++ ("]\n\nUser: ").toList ++ c.1)⟩,
           ⟨.model, .str c.2⟩] =
        (allTurnsP47 tc calls ++
          [⟨.user, .str (("[").toList ++ tc ++ ("]\n\nUser: ").toList ++ c.1)⟩]) ++
          [(⟨.model, .str c.2⟩ : Turn)] by simp]
      rw [lastN_append_one]

/-- C3 (amended): after any number of chat calls (with nonempty string
messages), the history of the v4.2.0, v2.0.0 and part_002 handlers equals
exactly the last cap turns (8, 10, 12) of the full turn sequence — so its
length never exceeds the cap and it is a suffix of the turns in order; the
Phase 4/7 handler trims to 20 *before* appending the model reply, so its
history equals the last 21 turns and can reach length 21. -/
theorem history_bounded_suffix (calls : List (List Char × List Char))
    (hne : ∀ c ∈ calls, c.1 ≠ []) :
    (runChatsV420 calls = lastN 8 (allTurns calls) ∧
     (runChatsV420 calls).length ≤ 8 ∧ runChatsV420 calls <:+ allTurns calls)
    ∧ (runChatsV200 calls = lastN 10 (allTurns calls) ∧
     (runChatsV200 calls).length ≤ 10 ∧ runChatsV200 calls <:+ allTurns calls)
    ∧ (runChatsP002 calls = lastN 12 (allTurns calls) ∧
     (runChatsP002 calls).length ≤ 12 ∧ runChatsP002 calls <:+ allTurns calls)
    ∧ (∀ tc, runChatsP47 tc calls = lastN 21 (allTurnsP47 tc calls) ∧
     (runChatsP47 tc calls).length ≤ 21 ∧ runChatsP47 tc calls <:+ allTurnsP47 tc calls) := by
  refine ⟨⟨runChatsV420_eq calls hne, ?_, ?_⟩, ⟨runChatsV200_eq calls hne, ?_, ?_⟩,
    ⟨runChatsP002_eq calls hne, ?_, ?_⟩, fun tc => ⟨runChatsP47_eq tc calls hne, ?_, ?_⟩⟩
  · rw [runChatsV420_eq calls hne]; exact lastN_length_le _ _
  · rw [runChatsV420_eq calls hne]; exact lastN_suffix _ _
  · rw [runChatsV200_eq calls hne]; exact lastN_length_le _ _
  · rw [runChatsV200_eq calls hne]; exact lastN_suffix _ _
  · rw [runChatsP002_eq calls hne]; exact lastN_length_le _ _
  · rw [runChatsP002_eq calls hne]; exact lastN_suffix _ _
  · rw [runChatsP47_eq tc calls hne]; exact lastN_length_le _ _
  · rw [runChatsP47_eq tc calls hne]; exact lastN_suffix _ _

/-- C3 counterexample: after 11 successful calls the Phase 4/7 history
holds 21 entries, exceeding the configured cap of 20 and refuting the
claim as stated for that version. -/
theorem history_cap_exceeded_p47 :
    ¬ ((runChatsP47 [] (List.replicate 11 ([('a' : Char)], [('b' : Char)]))).length ≤ 20) := by
  decide

theorem history_bounded_suffix_witness :
    (∀ c ∈ ([([('a' : Char)], [('b' : Char)])] : List (List Char × List Char)), c.1 ≠ []) ∧
    (runChatsV420 [([('a' : Char)], [('b' : Char)])]).length ≤ 8 := by
  refine ⟨by decide, (history_bounded_suffix _ (by decide)).1.2.1⟩

def weatherPat : List Char := ("[Weather:").toList

theorem containsSub_iff (pat hay : List Char) :
    containsSub pat hay = true ↔ pat <:+: hay := by
  unfold containsSub
  rw [List.any_eq_true]
  constructor
  · rintro ⟨i, _, hp⟩
    rw [List.isPrefixOf_iff_prefix] at hp
    obtain ⟨t, ht⟩ := hp
    exact ⟨hay.take i, t, by rw [List.append_assoc, ht, List.take_append_drop]⟩
  · rintro ⟨s, t, h⟩
    refine ⟨s.length, ?_, ?_⟩
    · rw [List.mem_range]
      have : s.length ≤ hay.length := by
        rw [← h]; simp
      omega
    · rw [List.isPrefixOf_iff_prefix]
      refine ⟨t, ?_⟩
      rw [← h, List.append_assoc, List.drop_left]

theorem infix_append_cases (pat a b : List α) (h : pat <:+: a ++ b) :
    pat <:+: a ∨ pat <:+: b ∨
      ∃ p q, pat = p ++ q ∧ p ≠ [] ∧ q ≠ [] ∧ p <:+ a ∧ q <+: b := by
  obtain ⟨s, t, h⟩ := h
  rw [List.append_assoc] at h
  rcases List.append_eq_append_iff.mp h with ⟨x, hx1, hx2⟩ | ⟨y, hy1, hy2⟩
  · -- a = s ++ x, pat ++ t = x ++ b
    rcases List.append_eq_append_iff.mp hx2 with ⟨w, hw1, hw2⟩ | ⟨z, hz1, hz2⟩
    · -- x = pat ++ w ∧ t = ...? check orientation
      -- (pat) ++ (t) = (x) ++ (b): case ∃ a', x = pat ++ a' ∧ t = a' ++ b
      subst hw1
      exact Or.inl ⟨s, w, by rw [hx1, List.append_assoc]⟩
    · -- ∃ c', pat = x ++ c' ∧ b = c' ++ t
      rcases eq_or_ne x [] with rfl | hx
      · refine Or.inr (Or.inl ⟨[], t, ?_⟩)
        rw [hz2, hz1]
        simp
      · rcases eq_or_ne z [] with rfl | hz
        · refine Or.inl ⟨s, [], ?_⟩
          rw [hx1, hz1]
          simp
        · exact Or.inr (Or.inr ⟨x, z, hz1, hx, hz, ⟨s, hx1.symm⟩, ⟨t, hz2.symm⟩⟩)
  · -- s = a ++ y, b = y ++ (pat ++ t)
    exact Or.inr (Or.inl ⟨y, t, by rw [hy2, List.append_assoc]⟩)

theorem prefix_head? (q l : List α) (h : q <+: l) (hq : q ≠ []) : q.head? = l.head? := by
  have hl : l ≠ [] := by
    intro h0
    subst h0
    exact hq (List.prefix_nil.mp h)
  rw [List.head?_eq_head hq, List.head?_eq_head hl, List.IsPrefix.head h hq]

theorem suffix_getLast? (p l : List α) (h : p <:+ l) (hp : p ≠ []) :
    p.getLast? = l.getLast? := by
  obtain ⟨s, rfl⟩ := h
  exact (List.getLast?_append_of_ne_nil s hp).symm

theorem weatherPat_infix_keyword (m : List Char) (h : weatherPat <:+: m) :
    isWeatherQuestion m = true := by
  have h2 : ("[weather:").toList <:+: m.map jsToLower := by
    have hmap := List.IsInfix.map jsToLower h
    have : List.map jsToLower weatherPat = ("[weather:").toList := by decide
    rwa [this] at hmap
  have h3 : ("weather").toList <:+: m.map jsToLower :=
    List.IsInfix.trans ⟨("[").toList, (":").toList, by decide⟩ h2
  unfold isWeatherQuestion
  rw [List.any_eq_true]
  exact ⟨("weather").toList, by simp [weatherKeywords], (containsSub_iff _ _).2 h3⟩

theorem mem_of_prefix_head (q l : List α) (c : α) (h : q <+: l) (hq : q ≠ [])
    (hl : l.head? = some c) : c ∈ q := by
  have h1 : q.head? = some c := by rw [prefix_head? q l h hq, hl]
  exact List.mem_of_mem_head? (by rw [h1]; rfl)

theorem mem_of_suffix_getLast (p l : List α) (c : α) (h : p <:+ l) (hp : p ≠ [])
    (hl : l.getLast? = some c) : c ∈ p := by
  have h1 : p.getLast? = some c := by rw [suffix_getLast? p l h hp, hl]
  exact List.mem_of_mem_getLast? (by rw [h1]; rfl)

theorem weatherPat_not_in_timeSeg (ct : Option (List Char))
    (hct : ∀ t, ct = some t → containsSub weatherPat t = false) :
    ¬ (weatherPat <:+: timeSeg ct) := by
  intro h
  match ct with
  | none =>
    simp [timeSeg] at h
    exact absurd h (by decide)
  | some t =>
    by_cases ht : t = []
    · simp [timeSeg, ht] at h
      exact absurd h (by decide)
    · simp only [timeSeg, if_neg ht] at h
      rw [List.append_assoc] at h
      rcases infix_append_cases _ _ _ h with h1 | h1 | ⟨p, q, hpq, hp, hq, hps, hqp⟩
      · rw [← containsSub_iff] at h1
        exact absurd h1 (by decide)
      · rcases infix_append_cases _ _ _ h1 with h2 | h2 | ⟨p, q, hpq, hp, hq, hps, hqp⟩
        · rw [← containsSub_iff] at h2
          rw [hct t rfl] at h2
          exact Bool.false_ne_true h2
        · have := List.IsInfix.length_le h2
          simp [weatherPat] at this
        · -- q nonempty prefix of ("]").toList, part of the pattern
          have hmem : ']' ∈ q := mem_of_prefix_head q _ ']' hqp hq (by decide)
          have : ']' ∈ weatherPat := by
            rw [hpq]
            simp [hmem]
          exact absurd this (by decide)
      · -- p nonempty suffix of the header "\n[Current time: "
        have hmem : ' ' ∈ p := mem_of_suffix_getLast p _ ' ' hps hp (by decide)
        have : ' ' ∈ weatherPat := by
          rw [hpq]
          simp [hmem]
        exact absurd this (by decide)

theorem no_annotation_in_context (m : List Char) (ct : Option (List Char))
    (hkw : isWeatherQuestion m = false)
    (hct : ∀ t, ct = some t → containsSub weatherPat t = false) :
    containsSub weatherPat (m ++ timeSeg ct) = false := by
  by_contra hc
  rw [Bool.not_eq_false, containsSub_iff] at hc
  rcases infix_append_cases _ _ _ hc with h1 | h1 | ⟨p, q, hpq, hp, hq, hps, hqp⟩
  · rw [weatherPat_infix_keyword m h1] at hkw
    exact absurd hkw (by simp)
  · exact weatherPat_not_in_timeSeg ct hct h1
  · match ct, hct, hqp with
    | none, hct, hqp =>
      simp [timeSeg] at hqp
      exact hq hqp
    | some t, hct, hqp =>
      by_cases ht : t = []
      · simp [timeSeg, ht] at hqp
        exact hq hqp
      · simp only [timeSeg, if_neg ht] at hqp
        have hmem : '\n' ∈ q := mem_of_prefix_head q _ '\n' hqp hq (by simp)
        have : '\n' ∈ weatherPat := by
          rw [hpq]
          simp [hmem]
        exact absurd this (by decide)

theorem weatherPat_in_format (w : WeatherInfo) (a : List Char) :
    containsSub weatherPat (a ++ formatWeather (some w)) = true := by
  rw [containsSub_iff]
  have hsplit : ("\n[Weather: ").toList = [('\n' : Char)] ++ weatherPat ++ [(' ' : Char)] := by
    decide
  refine ⟨a ++ [('\n' : Char)],
    [(' ' : Char)] ++ charsOfInt w.temp ++ ("°F (feels ").toList ++ charsOfInt w.feels ++
      ("°F), ").toList ++ w.desc ++ (", humidity ").toList ++ charsOfRat w.humidity ++
      ("%, wind ").toList ++ charsOfInt w.wind ++ ("mph in ").toList ++ w.city ++ ("]").toList, ?_⟩
  simp only [formatWeather, hsplit]
  simp

theorem getWeather_miss (wcache : WCache) (now : Int) (city : List Char) (raw : RawWeather)
    (hmiss : wcache.data = none ∨ 600000 ≤ now - wcache.timestamp) :
    getWeather true wcache now city (some raw) =
      (some (roundWeather raw), ⟨some (roundWeather raw), now⟩, true) := by
  rcases hmiss with h | h
  · simp [getWeather, h]
  · cases hd : wcache.data with
    | none => simp [getWeather, hd]
    | some d => simp [getWeather, hd, not_lt.mpr h]

/-- C6 (amended): for any chat request to the v4.2.0 handler whose message
matches no weather keyword, and whose client-supplied time string does not
itself contain the annotation pattern, the outgoing prompt contains no
`[Weather:` annotation (the message alone can never smuggle one in, since
any text containing `[Weather:` matches the `weather` keyword); for a
message matching a weather keyword, with the provider key configured and
the cache slot empty or stale, and the fetch returning a snapshot, the
outgoing prompt ends with the bracketed annotation whose temp, feels and
wind equal the rounded integer values of that snapshot. -/
theorem chat_weather_annotation :
    (∀ weatherKey now fetch m ct history wcache gen p,
      m ≠ [] → isWeatherQuestion m = false →
      (∀ t, ct = some t → containsSub weatherPat t = false) →
      (chatV420 true weatherKey now fetch (some (.str m)) ct history wcache gen).prompt =
        some p →
      containsSub weatherPat p = false)
    ∧ (∀ now raw m ct history wcache text,
      m ≠ [] → isWeatherQuestion m = true →
      (wcache.data = none ∨ 600000 ≤ now - wcache.timestamp) →
      (chatV420 true true now (some raw) (some (.str m)) ct history wcache
        (.ok text)).prompt =
        some (m ++ timeSeg ct ++ formatWeather (some (roundWeather raw))) ∧
      (roundWeather raw).temp = jsRound raw.temp ∧
      (roundWeather raw).feels = jsRound raw.feels_like ∧
      (roundWeather raw).wind = jsRound raw.wind_speed ∧
      containsSub weatherPat
        (m ++ timeSeg ct ++ formatWeather (some (roundWeather raw))) = true) := by
  constructor
  · intro weatherKey now fetch m ct history wcache gen p hm hkw hct hprompt
    have hp : p = m ++ timeSeg ct := by
      cases gen with
      | ok text =>
        simp [chatV420, hm, hkw] at hprompt
        exact hprompt.symm
      | error e =>
        simp [chatV420, hm, hkw] at hprompt
        split at hprompt <;> [skip; split at hprompt] <;> simp at hprompt <;>
          first
          | exact hprompt
          | exact hprompt.symm
    rw [hp]
    exact no_annotation_in_context m ct hkw hct
  · intro now raw m ct history wcache text hm hkw hmiss
    have hg := getWeather_miss wcache now (("Nashville").toList) raw hmiss
    refine ⟨?_, rfl, rfl, rfl, ?_⟩
    · simp [chatV420, hm, hkw]
      rw [getWeather_miss _ _ _ _ hmiss]
    · exact weatherPat_in_format (roundWeather raw) (m ++ timeSeg ct)

/-- C6 counterexample: the claim as stated fails in two ways — a
client-supplied time string can inject the annotation pattern into the
prompt of a keyword-free message, and with a fresh cache the annotation
shows the cached snapshot, not the rounded values of the snapshot the
provider would return. -/
theorem chat_weather_annotation_injected :
    isWeatherQuestion (("hi").toList) = false ∧
    ((chatV420 true false 0 none (some (.str ("hi").toList))
        (some (("See [Weather: 99°F] later").toList)) [] ⟨none, 0⟩
        (.ok ("r").toList)).prompt.map (containsSub weatherPat)) = some true ∧
    (chatV420 true true 1000 (some ⟨("N").toList, 90.2, 91.5, ("hot").toList, 10, 3⟩)
        (some (.str ("weather?").toList)) none []
        ⟨some ⟨("N").toList, 50, 49, ("clear").toList, 40, 5⟩, 500⟩
        (.ok ("r").toList)).prompt =
      some (("weather?").toList ++
        formatWeather (some ⟨("N").toList, 50, 49, ("clear").toList, 40, 5⟩)) ∧
    (⟨("N").toList, 50, 49, ("clear").toList, 40, 5⟩ : WeatherInfo).temp ≠
      jsRound (90.2 : Rat) := by
  refine ⟨by decide, by decide, by decide, by norm_num [jsRound]⟩

theorem chat_weather_annotation_witness :
    (("hi").toList ≠ []) ∧
    containsSub weatherPat (("hi").toList ++ timeSeg none) = false ∧
    containsSub weatherPat
      (("weather?").toList ++ timeSeg none ++
        formatWeather (some (roundWeather ⟨("N").toList, 50.4, 48.6, ("mist").toList, 40, 5.5⟩))) =
      true := by
  refine ⟨by decide, ?_, ?_⟩
  · exact ( chat_weather_annotation.1 false 0 none (("hi").toList) none [] ⟨none, 0⟩
      (.ok ("r").toList) (("hi").toList ++ timeSeg none) (by decide) (by decide)
      (fun t h => by cases h) rfl)
  · exact (( chat_weather_annotation.2 0 ⟨("N").toList, 50.4, 48.6, ("mist").toList, 40, 5.5⟩
      (("weather?").toList) none [] ⟨none, 0⟩ (("r").toList) (by decide) (by decide)
      (Or.inl rfl)).2.2.2.2)

theorem skipWs_ext (cs : List Char) (c : Char) (r t : List Char)
    (h : skipWs cs = c :: r) : skipWs (cs ++ t) = c :: (r ++ t) := by
  induction cs with
  | nil => exact absurd h (by simp [skipWs])
  | cons x xs ih =>
    by_cases hx : isJsonWs x
    · simp only [skipWs, if_pos hx] at h
      simp only [List.cons_append, skipWs, if_pos hx]
      exact ih h
    · simp only [skipWs, if_neg hx] at h
      cases h
      simp only [List.cons_append, skipWs, if_neg hx]
      rfl

theorem span_ext (p : Char → Bool) (cs : List Char) (x : Char) (xs t : List Char)
    (h : cs.dropWhile p = x :: xs) :
    (cs ++ t).takeWhile p = cs.takeWhile p ∧ (cs ++ t).dropWhile p = x :: xs ++ t := by
  induction cs with
  | nil => simp at h
  | cons c r ih =>
    by_cases hc : p c
    · simp only [List.dropWhile_cons, if_pos hc] at h
      have := ih h
      simp only [List.cons_append, List.takeWhile_cons, List.dropWhile_cons, if_pos hc, hc]
      simp [this.1, this.2]
    · simp only [List.dropWhile_cons, if_neg hc] at h
      cases h
      constructor
      · simp [List.takeWhile_cons, hc]
      · simp [List.dropWhile_cons, hc]

theorem parseFracPart_rest_nil : parseFracPart [] = some (0, []) := rfl

theorem parseExpPart_rest_nil : parseExpPart [] = some (0, []) := rfl

theorem parseFracPart_ne_nil (cs : List Char) (f : Rat) (r : List Char)
    (h : parseFracPart cs = some (f, r)) (hr : r ≠ []) : cs ≠ [] := by
  intro h0
  subst h0
  simp [parseFracPart] at h
  obtain ⟨h1, h2⟩ := h
  first
  | exact hr h2
  | exact hr h2.symm

theorem parseExpPart_ne_nil (cs : List Char) (e : Int) (r : List Char)
    (h : parseExpPart cs = some (e, r)) (hr : r ≠ []) : cs ≠ [] := by
  intro h0
  subst h0
  simp [parseExpPart] at h
  obtain ⟨h1, h2⟩ := h
  first
  | exact hr h2
  | exact hr h2.symm

theorem parseFracPart_ext (cs t : List Char) (f : Rat) (r : List Char)
    (h : parseFracPart cs = some (f, r)) (hr : r ≠ []) :
    parseFracPart (cs ++ t) = some (f, r ++ t) := by
  cases cs with
  | nil => exact absurd rfl (parseFracPart_ne_nil [] f r h hr)
  | cons c r₀ =>
    rw [List.cons_append]
    by_cases hc : c = '.'
    · subst hc
      have h2 : (if r₀.takeWhile Char.isDigit = [] then none
          else some (((digitsVal (r₀.takeWhile Char.isDigit) : Int) : Rat) /
              ((10 : Rat) ^ (r₀.takeWhile Char.isDigit).length),
            r₀.dropWhile Char.isDigit)) = some (f, r) := h
      show (if (r₀ ++ t).takeWhile Char.isDigit = [] then none
          else some (((digitsVal ((r₀ ++ t).takeWhile Char.isDigit) : Int) : Rat) /
              ((10 : Rat) ^ ((r₀ ++ t).takeWhile Char.isDigit).length),
            (r₀ ++ t).dropWhile Char.isDigit)) = some (f, r ++ t)
      split at h2
      · exact absurd h2 (by simp)
      · next hds =>
        obtain ⟨x, xs, hd⟩ : ∃ x xs, r₀.dropWhile Char.isDigit = x :: xs := by
          rcases hdw : r₀.dropWhile Char.isDigit with _ | ⟨x, xs⟩
          · exfalso
            rw [Option.some.injEq, Prod.mk.injEq, hdw] at h2
            exact hr h2.2.symm
          · exact ⟨x, xs, rfl⟩
        have hspan := span_ext Char.isDigit r₀ x xs t hd
        rw [hspan.1, hspan.2, if_neg hds]
        rw [Option.some.injEq, Prod.mk.injEq] at h2 ⊢
        refine ⟨h2.1, ?_⟩
        rw [← h2.2, hd]
    · simp only [parseFracPart, if_neg hc] at h ⊢
      rw [Option.some.injEq, Prod.mk.injEq] at h ⊢
      exact ⟨h.1, by rw [← h.2]; rfl⟩

theorem parseSign_ext (d : Char) (r₂ t : List Char) :
    parseSign ((d :: r₂) ++ t) = ((parseSign (d :: r₂)).1, (parseSign (d :: r₂)).2 ++ t) := by
  by_cases h1 : d = '+'
  · simp [parseSign, h1]
  · by_cases h2 : d = '-' <;> simp [parseSign, h1, h2]

theorem parseExpPart_ext (cs t : List Char) (e : Int) (r : List Char)
    (h : parseExpPart cs = some (e, r)) (hr : r ≠ []) :
    parseExpPart (cs ++ t) = some (e, r ++ t) := by
  cases cs with
  | nil => exact absurd rfl (parseExpPart_ne_nil [] e r h hr)
  | cons c r₀ =>
    rw [List.cons_append]
    by_cases hc : c = 'e' ∨ c = 'E'
    · simp only [parseExpPart, if_pos hc] at h ⊢
      split at h
      · exact absurd h (by simp)
      · next hds =>
        rw [Option.some.injEq, Prod.mk.injEq] at h
        obtain ⟨x, xs, hd⟩ : ∃ x xs, (parseSign r₀).2.dropWhile Char.isDigit = x :: xs := by
          rcases hdw : (parseSign r₀).2.dropWhile Char.isDigit with _ | ⟨x, xs⟩
          · exfalso
            rw [hdw] at h
            exact hr h.2.symm
          · exact ⟨x, xs, rfl⟩
        obtain ⟨d, r₂, rfl⟩ : ∃ d r₂, r₀ = d :: r₂ := by
          cases r₀ with
          | nil => simp [parseSign] at hd
          | cons d r₂ => exact ⟨d, r₂, rfl⟩
        rw [parseSign_ext]
        have hspan := span_ext Char.isDigit (parseSign (d :: r₂)).2 x xs t hd
        simp only [hspan.1, hspan.2, if_neg hds]
        rw [Option.some.injEq, Prod.mk.injEq]
        refine ⟨h.1, ?_⟩
        rw [← h.2, hd]
    · simp only [parseExpPart, if_neg hc] at h ⊢
      rw [Option.some.injEq, Prod.mk.injEq] at h ⊢
      exact ⟨h.1, by rw [← h.2]; rfl⟩

theorem parseNeg_ext (c : Char) (r t : List Char) :
    parseNeg (c :: (r ++ t)) = ((parseNeg (c :: r)).1, (parseNeg (c :: r)).2 ++ t) := by
  by_cases h1 : c = '-' <;> simp [parseNeg, h1]

theorem parseNumber_ext (cs t : List Char) (q : Rat) (r : List Char)
    (h : parseNumber cs = some (q, r)) (hr : r ≠ []) :
    parseNumber (cs ++ t) = some (q, r ++ t) := by
  cases cs with
  | nil => simp [parseNumber, parseNeg] at h
  | cons c₀ r' =>
    rw [List.cons_append]
    unfold parseNumber at h ⊢
    rw [parseNeg_ext]
    cases hnr : (parseNeg (c₀ :: r')).2 with
    | nil => rw [hnr] at h; simp at h
    | cons c tl =>
      rw [hnr] at h
      simp only [List.cons_append]
      by_cases hdig : c.isDigit
      · simp only [if_pos hdig] at h ⊢
        by_cases hc0 : c = '0'
        · simp only [if_pos hc0] at h ⊢
          cases hf : parseFracPart tl with
          | none => rw [hf] at h; simp at h
          | some p =>
            obtain ⟨f, r₂⟩ := p
            rw [hf] at h
            dsimp only at h
            cases he : parseExpPart r₂ with
            | none => rw [he] at h; simp at h
            | some p₂ =>
              obtain ⟨e, r₃⟩ := p₂
              rw [he] at h
              dsimp only at h
              simp only [Option.some.injEq, Prod.mk.injEq] at h
              have hr₃ : r₃ ≠ [] := by
                intro h0; subst h0; exact hr h.2.symm
              have hr₂ : r₂ ≠ [] := parseExpPart_ne_nil r₂ e r₃ he hr₃
              rw [parseFracPart_ext tl t f r₂ hf hr₂]
              dsimp only
              rw [parseExpPart_ext r₂ t e r₃ he hr₃]
              dsimp only
              simp only [Option.some.injEq, Prod.mk.injEq]
              exact ⟨h.1, by rw [← h.2]⟩
        · simp only [if_neg hc0] at h ⊢
          cases hf : parseFracPart (List.dropWhile Char.isDigit (c :: tl)) with
          | none => rw [hf] at h; simp at h
          | some p =>
            obtain ⟨f, r₂⟩ := p
            rw [hf] at h
            dsimp only at h
            cases he : parseExpPart r₂ with
            | none => rw [he] at h; simp at h
            | some p₂ =>
              obtain ⟨e, r₃⟩ := p₂
              rw [he] at h
              dsimp only at h
              simp only [Option.some.injEq, Prod.mk.injEq] at h
              have hr₃ : r₃ ≠ [] := by
                intro h0; subst h0; exact hr h.2.symm
              have hr₂ : r₂ ≠ [] := parseExpPart_ne_nil r₂ e r₃ he hr₃
              have hir : List.dropWhile Char.isDigit (c :: tl) ≠ [] :=
                parseFracPart_ne_nil _ f r₂ hf hr₂
              obtain ⟨x, xs, hd⟩ :
                  ∃ x xs, List.dropWhile Char.isDigit (c :: tl) = x :: xs := by
                rcases hdw : List.dropWhile Char.isDigit (c :: tl) with _ | ⟨x, xs⟩
                · exact absurd hdw hir
                · exact ⟨x, xs, rfl⟩
              have hspan := span_ext Char.isDigit (c :: tl) x xs t hd
              simp only [List.cons_append] at hspan
              rw [hspan.1, hspan.2]
              have hf2 : parseFracPart (x :: xs) = some (f, r₂) := by
                rw [← hd]; exact hf
              have hfe := parseFracPart_ext (x :: xs) t f r₂ hf2 hr₂
              simp only [List.cons_append] at hfe
              rw [hfe]
              dsimp only
              rw [parseExpPart_ext r₂ t e r₃ he hr₃]
              dsimp only
              simp only [Option.some.injEq, Prod.mk.injEq]
              refine ⟨?_, by rw [← h.2]⟩
              rw [← h.1]
      · simp only [if_neg hdig] at h
        exact absurd h (by simp)

theorem parseStringBody_ext (cs : List Char) :
    ∀ (s r t : List Char), parseStringBody cs = some (s, r) →
      parseStringBody (cs ++ t) = some (s, r ++ t) := by
  induction cs using parseStringBody.induct with
  | case1 => intro s r t h; rw [parseStringBody.eq_def] at h; simp at h
  | case2 r₀ =>
    intro s r t h
    rw [parseStringBody.eq_def] at h
    simp at h
    simp only [List.cons_append]
    rw [parseStringBody.eq_def]
    simp [h.1, ← h.2]
  | case3 hne =>
    intro s r t h
    rw [parseStringBody.eq_def] at h
    simp at h
  | case4 a b c₂ d r₂ ha hb hc hd hda hcb hbb hab hne ih =>
    intro s r t h
    rw [parseStringBody.eq_def] at h
    simp [hab, hbb, hcb, hda] at h
    obtain ⟨p1, hp, rfl⟩ := h
    simp only [List.cons_append]
    rw [parseStringBody.eq_def]
    simp [hab, hbb, hcb, hda]
    first
    | exact ih p1 r t hp
    | exact ⟨p1, ih p1 r t hp, rfl⟩
  | case5 a b c₂ d r₂ hno hne =>
    intro s r t h
    rw [parseStringBody.eq_def] at h
    simp at h
  | case6 r₀ hshape hne =>
    intro s r t h
    rw [parseStringBody.eq_def] at h
    simp at h
  | case7 c r₀ hcu ce hesc hne ih =>
    intro s r t h
    rw [parseStringBody.eq_def] at h
    simp [if_neg hcu, hesc] at h
    obtain ⟨p1, hp, rfl⟩ := h
    simp only [List.cons_append]
    rw [parseStringBody.eq_def]
    simp [if_neg hcu, hesc]
    first
    | exact ih p1 r t hp
    | exact ⟨p1, ih p1 r t hp, rfl⟩
  | case8 c r₀ hcu hesc hne =>
    intro s r t h
    rw [parseStringBody.eq_def] at h
    simp [if_neg hcu, hesc] at h
  | case9 c r₀ hq hbs hlt =>
    intro s r t h
    rw [parseStringBody.eq_def] at h
    simp [if_neg hq, if_neg hbs, if_pos hlt] at h
  | case10 c r₀ hq hbs hge ih =>
    intro s r t h
    rw [parseStringBody.eq_def] at h
    simp [if_neg hq, if_neg hbs, if_neg hge] at h
    obtain ⟨p1, hp, rfl⟩ := h
    simp only [List.cons_append]
    rw [parseStringBody.eq_def]
    simp [if_neg hq, if_neg hbs, if_neg hge]
    first
    | exact ih p1 r t hp
    | exact ⟨p1, ih p1 r t hp, rfl⟩

theorem parseVal_nil (fuel : Nat) : parseVal fuel [] = none := by
  cases fuel <;> simp [parseVal]

theorem parseMembers_nil (fuel : Nat) : parseMembers fuel [] = none := by
  cases fuel <;> simp [parseMembers]

theorem parseElems_nil (fuel : Nat) : parseElems fuel [] = none := by
  cases fuel <;> simp [parseElems, parseVal_nil]

theorem parse_mut_ext (fuel : Nat) :
    (∀ cs t v r, parseVal fuel cs = some (v, r) → (r ≠ [] ∨ isNumJ v = false) →
       parseVal fuel (cs ++ t) = some (v, r ++ t)) ∧
    (∀ cs t ms r, parseMembers fuel cs = some (ms, r) →
       parseMembers fuel (cs ++ t) = some (ms, r ++ t)) ∧
    (∀ cs t vs r, parseElems fuel cs = some (vs, r) →
       parseElems fuel (cs ++ t) = some (vs, r ++ t)) := by
  induction fuel with
  | zero =>
    refine ⟨?_, ?_, ?_⟩
    · intro cs t v r h; simp [parseVal] at h
    · intro cs t ms r h; simp [parseMembers] at h
    · intro cs t vs r h; simp [parseElems] at h
  | succ fuel ih =>
    obtain ⟨ihv, ihm, ihe⟩ := ih
    refine ⟨?_, ?_, ?_⟩
    · -- parseVal
      intro cs t v r h hside
      cases cs with
      | nil => simp [parseVal] at h
      | cons c r₀ =>
        simp only [List.cons_append]
        by_cases hc1 : c = '{'
        · subst hc1
          simp only [parseVal, eq_self_iff_true, ite_true] at h ⊢
          rcases hsw : skipWs r₀ with _ | ⟨c₁, x'⟩
          · rw [hsw] at h
            simp [parseMembers_nil] at h
          · rw [hsw] at h
            rw [skipWs_ext r₀ c₁ x' t hsw]
            by_cases hcb : c₁ = '}'
            · subst hcb
              simp at h ⊢
              exact ⟨h.1, by rw [← h.2]⟩
            · simp [hcb] at h ⊢
              obtain ⟨a, hp, rfl⟩ := h
              refine ⟨a, ?_, rfl⟩
              have hm := ihm (c₁ :: x') t a r hp
              simpa using hm
        · by_cases hc2 : c = '['
          · subst hc2
            simp only [parseVal] at h ⊢
            simp only [show ¬ (('[' : Char) = '{') from by decide, if_neg, if_false,
              eq_self_iff_true, ite_true, ite_false] at h ⊢
            rcases hsw : skipWs r₀ with _ | ⟨c₁, x'⟩
            · rw [hsw] at h
              simp [parseElems_nil] at h
            · rw [hsw] at h
              rw [skipWs_ext r₀ c₁ x' t hsw]
              by_cases hcb : c₁ = ']'
              · subst hcb
                simp at h ⊢
                exact ⟨h.1, by rw [← h.2]⟩
              · simp [hcb] at h ⊢
                obtain ⟨a, hp, rfl⟩ := h
                refine ⟨a, ?_, rfl⟩
                have hm := ihe (c₁ :: x') t a r hp
                simpa using hm
          · by_cases hc3 : c = '"'
            · subst hc3
              simp [parseVal] at h ⊢
              obtain ⟨a, hp, rfl⟩ := h
              exact ⟨a, parseStringBody_ext r₀ a r t hp, rfl⟩
            · by_cases hc4 : c = 't'
              · subst hc4
                simp only [parseVal] at h ⊢
                simp only [show ¬ (('t' : Char) = '{') from by decide,
                  show ¬ (('t' : Char) = '[') from by decide,
                  show ¬ (('t' : Char) = '"') from by decide,
                  eq_self_iff_true, ite_true, ite_false, if_neg, if_false] at h ⊢
                split at h
                · rw [Option.some.injEq, Prod.mk.injEq] at h
                  obtain ⟨hv, hr2⟩ := h
                  subst hv
                  subst hr2
                  simp
                · exact absurd h (by simp)
              · by_cases hc5 : c = 'f'
                · subst hc5
                  simp only [parseVal] at h ⊢
                  simp only [show ¬ (('f' : Char) = '{') from by decide,
                    show ¬ (('f' : Char) = '[') from by decide,
                    show ¬ (('f' : Char) = '"') from by decide,
                    show ¬ (('f' : Char) = 't') from by decide,
                    eq_self_iff_true, ite_true, ite_false, if_neg, if_false] at h ⊢
                  split at h
                  · rw [Option.some.injEq, Prod.mk.injEq] at h
                    obtain ⟨hv, hr2⟩ := h
                    subst hv
                    subst hr2
                    simp
                  · exact absurd h (by simp)
                · by_cases hc6 : c = 'n'
                  · subst hc6
                    simp only [parseVal] at h ⊢
                    simp only [show ¬ (('n' : Char) = '{') from by decide,
                      show ¬ (('n' : Char) = '[') from by decide,
                      show ¬ (('n' : Char) = '"') from by decide,
                      show ¬ (('n' : Char) = 't') from by decide,
                      show ¬ (('n' : Char) = 'f') from by decide,
                      eq_self_iff_true, ite_true, ite_false, if_neg, if_false] at h ⊢
                    split at h
                    · rw [Option.some.injEq, Prod.mk.injEq] at h
                      obtain ⟨hv, hr2⟩ := h
                      subst hv
                      subst hr2
                      simp
                    · exact absurd h (by simp)
                  · by_cases hc7 : c = '-' ∨ c.isDigit
                    · simp [parseVal, hc1, hc2, hc3, hc4, hc5, hc6, hc7] at h ⊢
                      obtain ⟨a, hp, rfl⟩ := h
                      have hr : r ≠ [] := by
                        rcases hside with hside | hside
                        · exact hside
                        · simp [isNumJ] at hside
                      have hn := parseNumber_ext (c :: r₀) t a r hp hr
                      simp only [List.cons_append] at hn
                      exact ⟨a, hn, rfl⟩
                    · simp [parseVal, hc1, hc2, hc3, hc4, hc5, hc6, hc7] at h
    · -- parseMembers
      intro cs t ms r h
      cases cs with
      | nil => simp [parseMembers] at h
      | cons c r₀ =>
        simp only [List.cons_append]
        by_cases hc : c = '"'
        · subst hc
          simp only [parseMembers, eq_self_iff_true, ite_true] at h ⊢
          cases hsb : parseStringBody r₀ with
          | none => rw [hsb] at h; simp at h
          | some kp =>
            obtain ⟨k, r₁⟩ := kp
            rw [hsb] at h
            rw [parseStringBody_ext r₀ k r₁ t hsb]
            dsimp only at h ⊢
            rcases hsw : skipWs r₁ with _ | ⟨c₂, r₂⟩
            · rw [hsw] at h; simp at h
            · rw [hsw] at h
              rw [skipWs_ext r₁ c₂ r₂ t hsw]
              by_cases hc₂ : c₂ = ':'
              · subst hc₂
                simp only [eq_self_iff_true, ite_true] at h ⊢
                rcases hsw2 : skipWs r₂ with _ | ⟨d, y⟩
                · rw [hsw2] at h
                  rw [parseVal_nil] at h
                  simp at h
                · rw [hsw2] at h
                  rw [skipWs_ext r₂ d y t hsw2]
                  cases hpv : parseVal fuel (d :: y) with
                  | none => rw [hpv] at h; simp at h
                  | some vp =>
                    obtain ⟨v, r₃⟩ := vp
                    rw [hpv] at h
                    dsimp only at h
                    rcases hsw3 : skipWs r₃ with _ | ⟨c₃, r₄⟩
                    · rw [hsw3] at h; simp at h
                    · rw [hsw3] at h
                      have hr₃ : r₃ ≠ [] := by
                        intro h0; subst h0; simp [skipWs] at hsw3
                      have hpv2 := ihv (d :: y) t v r₃ hpv (Or.inl hr₃)
                      simp only [List.cons_append] at hpv2
                      rw [hpv2]
                      dsimp only
                      rw [skipWs_ext r₃ c₃ r₄ t hsw3]
                      by_cases hc₃ : c₃ = ','
                      · subst hc₃
                        simp only [eq_self_iff_true, ite_true] at h ⊢
                        rcases hsw4 : skipWs r₄ with _ | ⟨e, z⟩
                        · rw [hsw4] at h
                          rw [parseMembers_nil] at h
                          simp at h
                        · rw [hsw4] at h
                          rw [skipWs_ext r₄ e z t hsw4]
                          cases hm : parseMembers fuel (e :: z) with
                          | none => rw [hm] at h; simp at h
                          | some mp =>
                            obtain ⟨ms', r₅⟩ := mp
                            rw [hm] at h
                            have hm2 := ihm (e :: z) t ms' r₅ hm
                            simp only [List.cons_append] at hm2
                            rw [hm2]
                            dsimp only at h ⊢
                            rw [Option.some.injEq, Prod.mk.injEq] at h ⊢
                            exact ⟨h.1, by rw [← h.2]⟩
                      · by_cases hc₃' : c₃ = '}'
                        · subst hc₃'
                          simp [hc₃] at h ⊢
                          exact ⟨h.1, by rw [← h.2]⟩
                        · simp [hc₃, hc₃'] at h
              · simp [hc₂] at h
        · simp [parseMembers, hc] at h
    · -- parseElems
      intro cs t vs r h
      simp only [parseElems] at h ⊢
      cases hpv : parseVal fuel cs with
      | none => rw [hpv] at h; simp at h
      | some vp =>
        obtain ⟨v, r₁⟩ := vp
        rw [hpv] at h
        dsimp only at h
        rcases hsw : skipWs r₁ with _ | ⟨c, r₂⟩
        · rw [hsw] at h; simp at h
        · rw [hsw] at h
          have hr₁ : r₁ ≠ [] := by
            intro h0; subst h0; simp [skipWs] at hsw
          rw [ihv cs t v r₁ hpv (Or.inl hr₁)]
          dsimp only
          rw [skipWs_ext r₁ c r₂ t hsw]
          by_cases hcc : c = ','
          · subst hcc
            simp only [eq_self_iff_true, ite_true] at h ⊢
            rcases hsw2 : skipWs r₂ with _ | ⟨d, y⟩
            · rw [hsw2] at h
              rw [parseElems_nil] at h
              simp at h
            · rw [hsw2] at h
              rw [skipWs_ext r₂ d y t hsw2]
              cases he : parseElems fuel (d :: y) with
              | none => rw [he] at h; simp at h
              | some ep =>
                obtain ⟨vs', r₃⟩ := ep
                rw [he] at h
                have he2 := ihe (d :: y) t vs' r₃ he
                simp only [List.cons_append] at he2
                rw [he2]
                dsimp only at h ⊢
                rw [Option.some.injEq, Prod.mk.injEq] at h ⊢
                exact ⟨h.1, by rw [← h.2]⟩
          · by_cases hcc' : c = ']'
            · subst hcc'
              simp [hcc] at h ⊢
              exact ⟨h.1, by rw [← h.2]⟩
            · simp [hcc, hcc'] at h

/-- Raising the fuel by one preserves any successful parse, for all three
mutual parsers at once. -/
theorem parse_mut_mono (fuel : Nat) :
    (∀ cs x, parseVal fuel cs = some x → parseVal (fuel + 1) cs = some x) ∧
    (∀ cs x, parseMembers fuel cs = some x → parseMembers (fuel + 1) cs = some x) ∧
    (∀ cs x, parseElems fuel cs = some x → parseElems (fuel + 1) cs = some x) := by
  induction fuel with
  | zero =>
    refine ⟨?_, ?_, ?_⟩
    · intro cs x h; simp [parseVal] at h
    · intro cs x h; simp [parseMembers] at h
    · intro cs x h; simp [parseElems] at h
  | succ fuel ih =>
    obtain ⟨ihv, ihm, ihe⟩ := ih
    refine ⟨?_, ?_, ?_⟩
    · intro cs x h
      cases cs with
      | nil => simp [parseVal] at h
      | cons c r₀ =>
        by_cases hc1 : c = '{'
        · subst hc1
          simp only [parseVal, eq_self_iff_true, ite_true] at h ⊢
          rcases hsw : skipWs r₀ with _ | ⟨c₁, x'⟩
          · rw [hsw] at h; simp [parseMembers_nil] at h
          · rw [hsw] at h
            by_cases hcb : c₁ = '}'
            · subst hcb; simpa using h
            · simp [hcb] at h ⊢
              obtain ⟨a, b, hp, hx⟩ := h
              exact ⟨a, b, ihm (c₁ :: x') (a, b) hp, hx⟩
        · by_cases hc2 : c = '['
          · subst hc2
            simp only [parseVal, show ¬ (('[' : Char) = '{') from by decide,
              eq_self_iff_true, ite_true, ite_false, if_neg, if_false] at h ⊢
            rcases hsw : skipWs r₀ with _ | ⟨c₁, x'⟩
            · rw [hsw] at h; simp [parseElems_nil] at h
            · rw [hsw] at h
              by_cases hcb : c₁ = ']'
              · subst hcb; simpa using h
              · simp [hcb] at h ⊢
                obtain ⟨a, b, hp, hx⟩ := h
                exact ⟨a, b, ihe (c₁ :: x') (a, b) hp, hx⟩
          · by_cases hc3 : c = '"'
            · simp [parseVal, hc1, hc2, hc3] at h ⊢; exact h
            · by_cases hc4 : c = 't'
              · simp only [parseVal, hc1, hc2, hc3, hc4, eq_self_iff_true,
                  ite_true, ite_false, if_neg, if_false] at h ⊢
                exact h
              · by_cases hc5 : c = 'f'
                · simp only [parseVal, hc1, hc2, hc3, hc4, hc5, eq_self_iff_true,
                    ite_true, ite_false, if_neg, if_false] at h ⊢
                  exact h
                · by_cases hc6 : c = 'n'
                  · simp only [parseVal, hc1, hc2, hc3, hc4, hc5, hc6,
                      eq_self_iff_true, ite_true, ite_false, if_neg, if_false] at h ⊢
                    exact h
                  · by_cases hc7 : c = '-' ∨ c.isDigit
                    · simp [parseVal, hc1, hc2, hc3, hc4, hc5, hc6, hc7] at h ⊢
                      exact h
                    · simp [parseVal, hc1, hc2, hc3, hc4, hc5, hc6, hc7] at h
    · intro cs x h
      cases cs with
      | nil => simp [parseMembers] at h
      | cons c r₀ =>
        by_cases hc : c = '"'
        · subst hc
          rw [parseMembers] at h ⊢
          simp only [eq_self_iff_true, ite_true] at h ⊢
          cases hsb : parseStringBody r₀ with
          | none => rw [hsb] at h; simp at h
          | some kp =>
            obtain ⟨k, r₁⟩ := kp
            rw [hsb] at h
            dsimp only at h ⊢
            rcases hsw : skipWs r₁ with _ | ⟨c₂, r₂⟩
            · rw [hsw] at h; simp at h
            · rw [hsw] at h
              by_cases hc₂ : c₂ = ':'
              · subst hc₂
                simp only [eq_self_iff_true, ite_true] at h ⊢
                cases hpv : parseVal fuel (skipWs r₂) with
                | none => rw [hpv] at h; simp at h
                | some vp =>
                  obtain ⟨v, r₃⟩ := vp
                  rw [hpv] at h
                  rw [ihv _ _ hpv]
                  dsimp only at h ⊢
                  rcases hsw3 : skipWs r₃ with _ | ⟨c₃, r₄⟩
                  · rw [hsw3] at h; simp at h
                  · rw [hsw3] at h
                    by_cases hc₃ : c₃ = ','
                    · subst hc₃
                      simp only [eq_self_iff_true, ite_true] at h ⊢
                      cases hm : parseMembers fuel (skipWs r₄) with
                      | none => rw [hm] at h; simp at h
                      | some mp =>
                        rw [hm] at h
                        rw [ihm _ _ hm]
                        exact h
                    · by_cases hc₃' : c₃ = '}'
                      · subst hc₃'
                        simp only [hc₃, eq_self_iff_true, ite_true,
                          ite_false, if_neg, if_false] at h ⊢
                        exact h
                      · simp [hc₃, hc₃'] at h
              · simp [hc₂] at h
        · simp [parseMembers, hc] at h
    · intro cs x h
      rw [parseElems] at h ⊢
      cases hpv : parseVal fuel cs with
      | none => rw [hpv] at h; simp at h
      | some vp =>
        obtain ⟨v, r₁⟩ := vp
        rw [hpv] at h
        rw [ihv _ _ hpv]
        dsimp only at h ⊢
        rcases hsw : skipWs r₁ with _ | ⟨c, r₂⟩
        · rw [hsw] at h; simp at h
        · rw [hsw] at h
          by_cases hcc : c = ','
          · subst hcc
            simp only [eq_self_iff_true, ite_true] at h ⊢
            cases he : parseElems fuel (skipWs r₂) with
            | none => rw [he] at h; simp at h
            | some ep =>
              rw [he] at h
              rw [ihe _ _ he]
              exact h
          · by_cases hcc' : c = ']'
            · subst hcc'
              simp only [hcc, eq_self_iff_true, ite_true,
                ite_false, if_neg, if_false] at h ⊢
              exact h
            · simp [hcc, hcc'] at h

/-- Successful parses survive any increase of the fuel. -/
theorem parseVal_mono (f f' : Nat) (hf : f ≤ f') (cs : List Char)
    (x : Json × List Char) (h : parseVal f cs = some x) :
    parseVal f' cs = some x := by
  obtain ⟨d, rfl⟩ := Nat.exists_eq_add_of_le hf
  induction d with
  | zero => exact h
  | succ d ihd => exact (parse_mut_mono (f + d)).1 cs x (ihd (Nat.le_add_right f d))

/-- A suffix of the tail is a suffix of the whole list. -/
theorem suffix_cons_of {α : Type} {l r : List α} (c : α) (h : l <:+ r) :
    l <:+ c :: r :=
  h.trans (List.suffix_cons c r)

/-- `skipWs` returns a suffix of its input. -/
theorem skipWs_suffix (cs : List Char) : skipWs cs <:+ cs := by
  induction cs with
  | nil => simp [skipWs]
  | cons c r ih =>
    rw [skipWs]
    split
    · exact suffix_cons_of c ih
    · exact List.suffix_refl _

/-- The rest returned by `parseStringBody` is a suffix of the input. -/
theorem parseStringBody_suffix (cs : List Char) :
    ∀ s r, parseStringBody cs = some (s, r) → r <:+ cs := by
  induction cs using parseStringBody.induct with
  | case1 => intro s r h; rw [parseStringBody.eq_def] at h; simp at h
  | case2 r₀ =>
    intro s r h
    rw [parseStringBody.eq_def] at h
    simp at h
    rw [← h.2]
    exact List.suffix_cons _ _
  | case3 hne => intro s r h; rw [parseStringBody.eq_def] at h; simp at h
  | case4 a b c₂ d r₂ ha hb hc hd hda hcb hbb hab hne ih =>
    intro s r h
    rw [parseStringBody.eq_def] at h
    simp [hab, hbb, hcb, hda] at h
    obtain ⟨p1, hp, rfl⟩ := h
    exact suffix_cons_of _ (suffix_cons_of _ (suffix_cons_of _ (suffix_cons_of _
      (suffix_cons_of _ (suffix_cons_of _ (ih p1 r hp))))))
  | case5 a b c₂ d r₂ hno hne =>
    intro s r h; rw [parseStringBody.eq_def] at h; simp at h
  | case6 r₀ hshape hne =>
    intro s r h; rw [parseStringBody.eq_def] at h; simp at h
  | case7 c r₀ hcu ce hesc hne ih =>
    intro s r h
    rw [parseStringBody.eq_def] at h
    simp [if_neg hcu, hesc] at h
    obtain ⟨p1, hp, rfl⟩ := h
    exact suffix_cons_of _ (suffix_cons_of _ (ih p1 r hp))
  | case8 c r₀ hcu hesc hne =>
    intro s r h
    rw [parseStringBody.eq_def] at h
    simp [if_neg hcu, hesc] at h
  | case9 c r₀ hq hbs hlt =>
    intro s r h
    rw [parseStringBody.eq_def] at h
    simp [if_neg hq, if_neg hbs, if_pos hlt] at h
  | case10 c r₀ hq hbs hge ih =>
    intro s r h
    rw [parseStringBody.eq_def] at h
    simp [if_neg hq, if_neg hbs, if_neg hge] at h
    obtain ⟨p1, hp, rfl⟩ := h
    exact suffix_cons_of _ (ih p1 r hp)

/-- The rest returned by `parseFracPart` is a suffix of the input. -/
theorem parseFracPart_suffix (cs : List Char) (f : Rat) (r : List Char)
    (h : parseFracPart cs = some (f, r)) : r <:+ cs := by
  cases cs with
  | nil =>
    simp [parseFracPart] at h
    rw [← h.2]
  | cons c r₀ =>
    rw [parseFracPart] at h
    split at h
    · dsimp only at h
      split at h
      · simp at h
      · simp at h
        rw [← h.2]
        exact suffix_cons_of _ (List.dropWhile_suffix _)
    · simp at h
      rw [← h.2]

/-- The rest returned by `parseSign` is a suffix of the input. -/
theorem parseSign_suffix (cs : List Char) : (parseSign cs).2 <:+ cs := by
  cases cs with
  | nil => simp [parseSign]
  | cons c r₀ =>
    rw [parseSign]
    split
    · exact List.suffix_cons _ _
    · split
      · exact List.suffix_cons _ _
      · exact List.suffix_refl _

/-- The rest returned by `parseExpPart` is a suffix of the input. -/
theorem parseExpPart_suffix (cs : List Char) (e : Int) (r : List Char)
    (h : parseExpPart cs = some (e, r)) : r <:+ cs := by
  cases cs with
  | nil =>
    simp [parseExpPart] at h
    rw [← h.2]
  | cons c r₀ =>
    rw [parseExpPart] at h
    split at h
    · dsimp only at h
      split at h
      · simp at h
      · simp at h
        rw [← h.2]
        exact suffix_cons_of _ ((List.dropWhile_suffix _).trans (parseSign_suffix r₀))
    · simp at h
      rw [← h.2]

/-- The rest returned by `parseNeg` is a suffix of the input. -/
theorem parseNeg_suffix (cs : List Char) : (parseNeg cs).2 <:+ cs := by
  cases cs with
  | nil => simp [parseNeg]
  | cons c r₀ =>
    rw [parseNeg]
    split
    · exact List.suffix_cons _ _
    · exact List.suffix_refl _

/-- The rest returned by `parseNumber` is a suffix of the input. -/
theorem parseNumber_suffix (cs : List Char) (q : Rat) (r : List Char)
    (h : parseNumber cs = some (q, r)) : r <:+ cs := by
  rw [parseNumber] at h
  rcases hpn : (parseNeg cs).2 with _ | ⟨c, tl⟩
  · rw [hpn] at h; simp at h
  · rw [hpn] at h
    dsimp only at h
    split at h
    · have htl : c :: tl <:+ cs := hpn ▸ parseNeg_suffix cs
      have hir : (if c = '0' then (([c] : List Char), tl)
          else ((c :: tl).takeWhile Char.isDigit, (c :: tl).dropWhile Char.isDigit)).2
          <:+ c :: tl := by
        split
        · exact List.suffix_cons _ _
        · exact List.dropWhile_suffix _
      cases hf : parseFracPart (if c = '0' then (([c] : List Char), tl)
          else ((c :: tl).takeWhile Char.isDigit, (c :: tl).dropWhile Char.isDigit)).2 with
      | none => rw [hf] at h; simp at h
      | some fp =>
        obtain ⟨f, r₂⟩ := fp
        rw [hf] at h
        dsimp only at h
        cases he : parseExpPart r₂ with
        | none => rw [he] at h; simp at h
        | some ep =>
          obtain ⟨e, r₃⟩ := ep
          rw [he] at h
          dsimp only at h
          rw [Option.some.injEq, Prod.mk.injEq] at h
          rw [← h.2]
          exact ((parseExpPart_suffix r₂ e r₃ he).trans
            (parseFracPart_suffix _ f r₂ hf)).trans (hir.trans htl)
    · simp at h

/-- Counting along a suffix never increases. -/
theorem count_le_of_suffix {l m : List Char} (h : l <:+ m) (a : Char) :
    l.count a ≤ m.count a :=
  h.sublist.count_le a

/-- Brace accounting for the three mutual parsers: the rest is a suffix of
the input, parsing an object consumes at least one `}`, and parsing an
object with an object-valued member consumes at least two. -/
theorem parse_mut_count (fuel : Nat) :
    (∀ cs v r, parseVal fuel cs = some (v, r) →
       r <:+ cs ∧
       (hasObj v = true → r.count '}' + 1 ≤ cs.count '}') ∧
       (isNestedObj v = true → r.count '}' + 2 ≤ cs.count '}')) ∧
    (∀ cs ms r, parseMembers fuel cs = some (ms, r) →
       r <:+ cs ∧ r.count '}' + 1 ≤ cs.count '}' ∧
       (ms.any (fun kv => hasObj kv.2) = true → r.count '}' + 2 ≤ cs.count '}')) ∧
    (∀ cs vs r, parseElems fuel cs = some (vs, r) →
       r <:+ cs ∧
       (hasObjArr vs = true → r.count '}' + 1 ≤ cs.count '}')) := by
  induction fuel with
  | zero =>
    refine ⟨?_, ?_, ?_⟩
    · intro cs v r h; simp [parseVal] at h
    · intro cs ms r h; simp [parseMembers] at h
    · intro cs vs r h; simp [parseElems] at h
  | succ fuel ih =>
    obtain ⟨ihv, ihm, ihe⟩ := ih
    refine ⟨?_, ?_, ?_⟩
    · intro cs v r h
      cases cs with
      | nil => simp [parseVal] at h
      | cons c r₀ =>
        by_cases hc1 : c = '{'
        · subst hc1
          simp only [parseVal, eq_self_iff_true, ite_true] at h
          rcases hsw : skipWs r₀ with _ | ⟨c₁, x'⟩
          · rw [hsw] at h; simp [parseMembers_nil] at h
          · rw [hsw] at h
            have hsw' : c₁ :: x' <:+ r₀ := hsw ▸ skipWs_suffix r₀
            by_cases hcb : c₁ = '}'
            · subst hcb
              simp only [Option.some.injEq, Prod.mk.injEq] at h
              obtain ⟨hv, hr⟩ := h
              subst hv; subst hr
              refine ⟨suffix_cons_of '{' ((List.suffix_cons '}' x').trans hsw'),
                fun _ => ?_, fun hn => ?_⟩
              · have hA := count_le_of_suffix hsw' '}'
                simp [List.count_cons] at hA ⊢
                omega
              · simp [isNestedObj] at hn
            · simp [hcb] at h
              obtain ⟨a, hp, hv⟩ := h
              subst hv
              obtain ⟨hsuf, hcnt1, hcnt2⟩ := ihm (c₁ :: x') a r hp
              have hA := count_le_of_suffix hsw' '}'
              refine ⟨suffix_cons_of '{' (hsuf.trans hsw'), fun _ => ?_, fun hn => ?_⟩
              · simp [List.count_cons]
                omega
              · simp only [isNestedObj] at hn
                have := hcnt2 hn
                simp [List.count_cons]
                omega
        · by_cases hc2 : c = '['
          · subst hc2
            simp only [parseVal, show ¬ (('[' : Char) = '{') from by decide,
              eq_self_iff_true, ite_true, ite_false, if_neg, if_false] at h
            rcases hsw : skipWs r₀ with _ | ⟨c₁, x'⟩
            · rw [hsw] at h; simp [parseElems_nil] at h
            · rw [hsw] at h
              have hsw' : c₁ :: x' <:+ r₀ := hsw ▸ skipWs_suffix r₀
              by_cases hcb : c₁ = ']'
              · subst hcb
                simp only [Option.some.injEq, Prod.mk.injEq] at h
                obtain ⟨hv, hr⟩ := h
                subst hv; subst hr
                exact ⟨suffix_cons_of '[' ((List.suffix_cons ']' x').trans hsw'),
                  by simp [hasObj, hasObjArr], by simp [isNestedObj]⟩
              · simp [hcb] at h
                obtain ⟨a, hp, hv⟩ := h
                subst hv
                obtain ⟨hsuf, hcnt⟩ := ihe (c₁ :: x') a r hp
                have hA := count_le_of_suffix hsw' '}'
                refine ⟨suffix_cons_of '[' (hsuf.trans hsw'), fun ho => ?_,
                  by simp [isNestedObj]⟩
                simp only [hasObj] at ho
                have := hcnt ho
                simp [List.count_cons]
                omega
          · by_cases hc3 : c = '"'
            · subst hc3
              simp [parseVal, hc1, hc2] at h
              obtain ⟨a, hp, hv⟩ := h
              subst hv
              exact ⟨suffix_cons_of '"' (parseStringBody_suffix r₀ a r hp),
                by simp [hasObj], by simp [isNestedObj]⟩
            · by_cases hc4 : c = 't'
              · subst hc4
                simp only [parseVal, hc1, hc2, hc3, eq_self_iff_true,
                  ite_true, ite_false, if_neg, if_false] at h
                split at h
                · rw [Option.some.injEq, Prod.mk.injEq] at h
                  obtain ⟨hv, hr⟩ := h
                  subst hv; subst hr
                  exact ⟨suffix_cons_of _ (suffix_cons_of _ (suffix_cons_of _
                    (suffix_cons_of _ (List.suffix_refl _)))),
                    by simp [hasObj], by simp [isNestedObj]⟩
                · exact absurd h (by simp)
              · by_cases hc5 : c = 'f'
                · subst hc5
                  simp only [parseVal, hc1, hc2, hc3, hc4, eq_self_iff_true,
                    ite_true, ite_false, if_neg, if_false] at h
                  split at h
                  · rw [Option.some.injEq, Prod.mk.injEq] at h
                    obtain ⟨hv, hr⟩ := h
                    subst hv; subst hr
                    exact ⟨suffix_cons_of _ (suffix_cons_of _ (suffix_cons_of _
                      (suffix_cons_of _ (suffix_cons_of _ (List.suffix_refl _))))),
                      by simp [hasObj], by simp [isNestedObj]⟩
                  · exact absurd h (by simp)
                · by_cases hc6 : c = 'n'
                  · subst hc6
                    simp only [parseVal, hc1, hc2, hc3, hc4, hc5, eq_self_iff_true,
                      ite_true, ite_false, if_neg, if_false] at h
                    split at h
                    · rw [Option.some.injEq, Prod.mk.injEq] at h
                      obtain ⟨hv, hr⟩ := h
                      subst hv; subst hr
                      exact ⟨suffix_cons_of _ (suffix_cons_of _ (suffix_cons_of _
                        (suffix_cons_of _ (List.suffix_refl _)))),
                        by simp [hasObj], by simp [isNestedObj]⟩
                    · exact absurd h (by simp)
                  · by_cases hc7 : c = '-' ∨ c.isDigit
                    · simp [parseVal, hc1, hc2, hc3, hc4, hc5, hc6, hc7] at h
                      obtain ⟨a, hp, hv⟩ := h
                      subst hv
                      exact ⟨parseNumber_suffix (c :: r₀) a r hp,
                        by simp [hasObj], by simp [isNestedObj]⟩
                    · simp [parseVal, hc1, hc2, hc3, hc4, hc5, hc6, hc7] at h
    · intro cs ms r h
      cases cs with
      | nil => simp [parseMembers] at h
      | cons c r₀ =>
        by_cases hc : c = '"'
        · subst hc
          rw [parseMembers] at h
          simp only [eq_self_iff_true, ite_true] at h
          cases hsb : parseStringBody r₀ with
          | none => rw [hsb] at h; simp at h
          | some kp =>
            obtain ⟨k, r₁⟩ := kp
            rw [hsb] at h
            dsimp only at h
            have hs1 : r₁ <:+ r₀ := parseStringBody_suffix r₀ k r₁ hsb
            have hA := count_le_of_suffix hs1 '}'
            rcases hsw : skipWs r₁ with _ | ⟨c₂, r₂⟩
            · rw [hsw] at h; simp at h
            · rw [hsw] at h
              have hs2 : c₂ :: r₂ <:+ r₁ := hsw ▸ skipWs_suffix r₁
              by_cases hc₂ : c₂ = ':'
              · subst hc₂
                have hB : r₂.count '}' ≤ r₁.count '}' := by
                  have := count_le_of_suffix hs2 '}'
                  simp [List.count_cons] at this
                  omega
                simp only [eq_self_iff_true, ite_true] at h
                cases hpv : parseVal fuel (skipWs r₂) with
                | none => rw [hpv] at h; simp at h
                | some vp =>
                  obtain ⟨v, r₃⟩ := vp
                  rw [hpv] at h
                  dsimp only at h
                  obtain ⟨hsv, hcv1, _⟩ := ihv (skipWs r₂) v r₃ hpv
                  have hs3 : r₃ <:+ r₂ := hsv.trans (skipWs_suffix r₂)
                  have hC : r₃.count '}' ≤ r₂.count '}' := count_le_of_suffix hs3 '}'
                  have hC' : (skipWs r₂).count '}' ≤ r₂.count '}' :=
                    count_le_of_suffix (skipWs_suffix r₂) '}'
                  rcases hsw3 : skipWs r₃ with _ | ⟨c₃, r₄⟩
                  · rw [hsw3] at h; simp at h
                  · rw [hsw3] at h
                    have hs4 : c₃ :: r₄ <:+ r₃ := hsw3 ▸ skipWs_suffix r₃
                    by_cases hc₃ : c₃ = ','
                    · subst hc₃
                      have hD : r₄.count '}' ≤ r₃.count '}' := by
                        have := count_le_of_suffix hs4 '}'
                        simp [List.count_cons] at this
                        omega
                      simp only [eq_self_iff_true, ite_true] at h
                      cases hm : parseMembers fuel (skipWs r₄) with
                      | none => rw [hm] at h; simp at h
                      | some mp =>
                        obtain ⟨ms', r₅⟩ := mp
                        rw [hm] at h
                        dsimp only at h
                        rw [Option.some.injEq, Prod.mk.injEq] at h
                        obtain ⟨hms, hr⟩ := h
                        subst hms; subst hr
                        obtain ⟨hsm, hcm1, hcm2⟩ := ihm (skipWs r₄) ms' r₅ hm
                        have hE' : (skipWs r₄).count '}' ≤ r₄.count '}' :=
                          count_le_of_suffix (skipWs_suffix r₄) '}'
                        refine ⟨?_, ?_, ?_⟩
                        · exact suffix_cons_of '"'
                            (((hsm.trans (skipWs_suffix r₄)).trans
                              ((List.suffix_cons ',' r₄).trans hs4)).trans
                              ((hs3.trans ((List.suffix_cons ':' r₂).trans hs2)).trans hs1))
                        · simp [List.count_cons]
                          omega
                        · intro hany
                          simp only [List.any_cons, Bool.or_eq_true] at hany
                          simp [List.count_cons]
                          rcases hany with hobj | hrest
                          · have := hcv1 hobj
                            omega
                          · have := hcm2 hrest
                            omega
                    · by_cases hc₃' : c₃ = '}'
                      · subst hc₃'
                        simp only [if_neg hc₃, eq_self_iff_true, ite_true] at h
                        rw [Option.some.injEq, Prod.mk.injEq] at h
                        obtain ⟨hms, hr⟩ := h
                        subst hms; subst hr
                        have hD : r₄.count '}' + 1 ≤ r₃.count '}' := by
                          have := count_le_of_suffix hs4 '}'
                          simp [List.count_cons] at this
                          omega
                        refine ⟨?_, ?_, ?_⟩
                        · exact suffix_cons_of '"'
                            ((((List.suffix_cons '}' r₄).trans hs4).trans
                              (hs3.trans ((List.suffix_cons ':' r₂).trans hs2))).trans hs1)
                        · simp [List.count_cons]
                          omega
                        · intro hany
                          simp only [List.any_cons, List.any_nil,
                            Bool.or_false, Bool.or_eq_true] at hany
                          have := hcv1 hany
                          simp [List.count_cons]
                          omega
                      · simp [hc₃, hc₃'] at h
              · simp [hc₂] at h
        · simp [parseMembers, hc] at h
    · intro cs vs r h
      rw [parseElems] at h
      cases hpv : parseVal fuel cs with
      | none => rw [hpv] at h; simp at h
      | some vp =>
        obtain ⟨v, r₁⟩ := vp
        rw [hpv] at h
        dsimp only at h
        obtain ⟨hs1, hcv1, _⟩ := ihv cs v r₁ hpv
        have hA : r₁.count '}' ≤ cs.count '}' := count_le_of_suffix hs1 '}'
        rcases hsw : skipWs r₁ with _ | ⟨c, r₂⟩
        · rw [hsw] at h; simp at h
        · rw [hsw] at h
          have hs2 : c :: r₂ <:+ r₁ := hsw ▸ skipWs_suffix r₁
          have hB : r₂.count '}' ≤ r₁.count '}' := by
            have := count_le_of_suffix hs2 '}'
            simp [List.count_cons] at this
            omega
          by_cases hcc : c = ','
          · subst hcc
            simp only [eq_self_iff_true, ite_true] at h
            cases he : parseElems fuel (skipWs r₂) with
            | none => rw [he] at h; simp at h
            | some ep =>
              obtain ⟨vs', r₃⟩ := ep
              rw [he] at h
              dsimp only at h
              rw [Option.some.injEq, Prod.mk.injEq] at h
              obtain ⟨hvs, hr⟩ := h
              subst hvs; subst hr
              obtain ⟨hse, hce⟩ := ihe (skipWs r₂) vs' r₃ he
              have hC : r₃.count '}' ≤ (skipWs r₂).count '}' := count_le_of_suffix hse '}'
              have hC' : (skipWs r₂).count '}' ≤ r₂.count '}' :=
                count_le_of_suffix (skipWs_suffix r₂) '}'
              refine ⟨(hse.trans (skipWs_suffix r₂)).trans
                (((List.suffix_cons ',' r₂).trans hs2).trans hs1), fun hany => ?_⟩
              simp only [hasObjArr, Bool.or_eq_true] at hany
              rcases hany with hov | hrest
              · have := hcv1 hov
                omega
              · have := hce hrest
                omega
          · by_cases hcc' : c = ']'
            · subst hcc'
              simp only [if_neg hcc, eq_self_iff_true, ite_true] at h
              rw [Option.some.injEq, Prod.mk.injEq] at h
              obtain ⟨hvs, hr⟩ := h
              subst hvs; subst hr
              refine ⟨((List.suffix_cons ']' r₂).trans hs2).trans hs1, fun hany => ?_⟩
              simp only [hasObjArr, Bool.or_false] at hany
              have := hcv1 hany
              omega
            · simp [hcc, hcc'] at h

/-- A nested object is in particular an object. -/
theorem isObjJ_of_nested (v : Json) (h : isNestedObj v = true) : isObjJ v = true := by
  cases v <;> simp [isNestedObj, isObjJ] at h ⊢

/-- An object is not a number. -/
theorem isNumJ_eq_false_of_obj (v : Json) (h : isObjJ v = true) : isNumJ v = false := by
  cases v <;> simp [isObjJ, isNumJ] at h ⊢

/-- A parse that starts at a `{` yields an object. -/
theorem parseVal_brace_obj (fuel : Nat) (r₀ : List Char) (w : Json) (r : List Char)
    (h : parseVal fuel ('{' :: r₀) = some (w, r)) : isObjJ w = true := by
  cases fuel with
  | zero => simp [parseVal] at h
  | succ f =>
    simp only [parseVal, eq_self_iff_true, ite_true] at h
    rcases hsw : skipWs r₀ with _ | ⟨c₁, x'⟩
    · rw [hsw] at h; simp [parseMembers_nil] at h
    · rw [hsw] at h
      by_cases hcb : c₁ = '}'
      · subst hcb
        simp only [Option.some.injEq, Prod.mk.injEq] at h
        rw [← h.1]
        rfl
      · simp [hcb] at h
        obtain ⟨a, hp, hv⟩ := h
        rw [← hv]
        rfl

/-- Only inputs headed by `{` parse to an object. -/
theorem parseVal_obj_head (fuel : Nat) (cs : List Char) (v : Json)
    (r : List Char) (h : parseVal fuel cs = some (v, r)) (ho : isObjJ v = true) :
    ∃ r₀, cs = '{' :: r₀ := by
  cases fuel with
  | zero => simp [parseVal] at h
  | succ f =>
    cases cs with
    | nil => simp [parseVal] at h
    | cons c r₀ =>
      refine ⟨r₀, ?_⟩
      by_cases hc1 : c = '{'
      · rw [hc1]
      · exfalso
        by_cases hc2 : c = '['
        · subst hc2
          simp only [parseVal, show ¬ (('[' : Char) = '{') from by decide,
            eq_self_iff_true, ite_true, ite_false, if_neg, if_false] at h
          rcases hsw : skipWs r₀ with _ | ⟨c₁, x'⟩
          · rw [hsw] at h; simp [parseElems_nil] at h
          · rw [hsw] at h
            by_cases hcb : c₁ = ']'
            · subst hcb
              simp only [Option.some.injEq, Prod.mk.injEq] at h
              rw [← h.1] at ho
              simp [isObjJ] at ho
            · simp [hcb] at h
              obtain ⟨a, hp, hv⟩ := h
              rw [← hv] at ho
              simp [isObjJ] at ho
        · by_cases hc3 : c = '"'
          · subst hc3
            simp [parseVal, hc1, hc2] at h
            obtain ⟨a, hp, hv⟩ := h
            rw [← hv] at ho
            simp [isObjJ] at ho
          · by_cases hc4 : c = 't'
            · subst hc4
              simp only [parseVal, hc1, hc2, hc3, eq_self_iff_true, ite_true,
                ite_false, if_neg, if_false] at h
              split at h
              · simp only [Option.some.injEq, Prod.mk.injEq] at h
                rw [← h.1] at ho
                simp [isObjJ] at ho
              · exact absurd h (by simp)
            · by_cases hc5 : c = 'f'
              · subst hc5
                simp only [parseVal, hc1, hc2, hc3, hc4, eq_self_iff_true, ite_true,
                  ite_false, if_neg, if_false] at h
                split at h
                · simp only [Option.some.injEq, Prod.mk.injEq] at h
                  rw [← h.1] at ho
                  simp [isObjJ] at ho
                · exact absurd h (by simp)
              · by_cases hc6 : c = 'n'
                · subst hc6
                  simp only [parseVal, hc1, hc2, hc3, hc4, hc5, eq_self_iff_true,
                    ite_true, ite_false, if_neg, if_false] at h
                  split at h
                  · simp only [Option.some.injEq, Prod.mk.injEq] at h
                    rw [← h.1] at ho
                    simp [isObjJ] at ho
                  · exact absurd h (by simp)
                · by_cases hc7 : c = '-' ∨ c.isDigit
                  · simp [parseVal, hc1, hc2, hc3, hc4, hc5, hc6, hc7] at h
                    obtain ⟨a, hp, hv⟩ := h
                    rw [← hv] at ho
                    simp [isObjJ] at ho
                  · simp [parseVal, hc1, hc2, hc3, hc4, hc5, hc6, hc7] at h

/-- A successful whole-string decode is a parse that consumes everything. -/
theorem jsonDecode_some (cs : List Char) (v : Json) (h : jsonDecode cs = some v) :
    parseVal (cs.length + 1) cs = some (v, []) := by
  rw [jsonDecode] at h
  rcases hp : parseVal (cs.length + 1) cs with _ | ⟨w, r⟩
  · rw [hp] at h; simp at h
  · rw [hp] at h
    cases r with
    | nil =>
      simp at h
      rw [h]
    | cons a b => simp at h

/-- `takeThroughBrace` stops at the first `}`. -/
theorem takeThroughBrace_split (l₁ l₂ : List Char) (hno : '}' ∉ l₁) :
    takeThroughBrace (l₁ ++ '}' :: l₂) = l₁ ++ ['}'] := by
  induction l₁ with
  | nil => simp [takeThroughBrace]
  | cons a l ih =>
    have ha : ¬ a = '}' := fun hx => hno (by simp [hx])
    rw [List.cons_append, takeThroughBrace, if_neg ha,
      ih (fun hm => hno (List.mem_cons_of_mem a hm))]
    simp

/-- Split a list at its first `}`. -/
theorem first_brace_split (l : List Char) (h : '}' ∈ l) :
    ∃ l₁ l₂, l = l₁ ++ '}' :: l₂ ∧ '}' ∉ l₁ := by
  induction l with
  | nil => simp at h
  | cons a r ih =>
    by_cases ha : a = '}'
    · exact ⟨[], r, by rw [ha]; rfl, by simp⟩
    · have hm : '}' ∈ r := by
        rcases List.mem_cons.mp h with h1 | h2
        · exact absurd h1.symm ha
        · exact h2
      obtain ⟨l₁, l₂, heq, hno⟩ := ih hm
      refine ⟨a :: l₁, l₂, by rw [List.cons_append, heq], ?_⟩
      intro hx
      rcases List.mem_cons.mp hx with h1 | h2
      · exact ha h1.symm
      · exact hno h2

/-- C9: the non-greedy regex of part_000 line 241 matches from the first
brace of the trimmed model text to the first closing brace after it, so
when the leading JSON object of the text contains a nested brace-delimited
object — a member value that is, or at any depth (also inside arrays)
contains, an object — the extracted substring stops at a closing brace
inside the object: it is a proper prefix of the object's text,
`JSON.parse` on it throws, and the handler answers 200 with the
all-default record. -/
theorem reminder_nested_brace_truncation
    (message : Option Json) (text s₀ rest : List Char) (v : Json)
    (hmsg : truthyOpt message = true)
    (htrim : jsTrim text = s₀ ++ rest)
    (hdec : jsonDecode s₀ = some v)
    (hnest : isNestedObj v = true) :
    ∃ e l₂, extractBrace (jsTrim text) = some e ∧ s₀ = e ++ l₂ ∧ l₂ ≠ [] ∧
      jsonDecode e = none ∧
      parseReminder true message (.ok text) = (200, .record defaultReminder) := by
  have hval := jsonDecode_some s₀ v hdec
  have hobj : isObjJ v = true := isObjJ_of_nested v hnest
  obtain ⟨tail, htail⟩ := parseVal_obj_head _ s₀ v [] hval hobj
  subst htail
  have hcount : (2 : Nat) ≤ ('{' :: tail).count '}' := by
    simpa using ((parse_mut_count _).1 _ v [] hval).2.2 hnest
  have hcount' : (2 : Nat) ≤ tail.count '}' := by
    have h2 : List.count '}' ('{' :: tail) = List.count '}' tail := by
      simp [List.count_cons]
    omega
  have hmem : '}' ∈ tail := by
    have hpos : 0 < tail.count '}' := by omega
    exact List.count_pos_iff.mp hpos
  obtain ⟨l₁, l₂, hsplit, hno⟩ := first_brace_split tail hmem
  have hl₁0 : l₁.count '}' = 0 := List.count_eq_zero.mpr hno
  have hl₂pos : 1 ≤ l₂.count '}' := by
    rw [hsplit] at hcount'
    simp [List.count_append, List.count_cons, hl₁0] at hcount'
    exact List.count_pos_iff.mpr hcount'
  have hl₂ne : l₂ ≠ [] := by
    intro h0
    rw [h0] at hl₂pos
    simp at hl₂pos
  have hcont : (tail ++ rest).contains '}' = true := by
    rw [hsplit]
    simp
  have hext : extractBrace ('{' :: (tail ++ rest)) = some ('{' :: (l₁ ++ ['}'])) := by
    rw [extractBrace]
    simp only [eq_self_iff_true, ite_true]
    rw [if_pos hcont, hsplit, List.append_assoc]
    simp only [List.cons_append]
    rw [takeThroughBrace_split l₁ (l₂ ++ rest) hno]
  have hs₀ : '{' :: tail = ('{' :: (l₁ ++ ['}'])) ++ l₂ := by
    rw [hsplit]
    simp
  have hdecE : jsonDecode ('{' :: (l₁ ++ ['}'])) = none := by
    rcases hd : jsonDecode ('{' :: (l₁ ++ ['}'])) with _ | w
    · rfl
    · exfalso
      have hw := jsonDecode_some _ w hd
      have hwobj : isObjJ w = true := parseVal_brace_obj _ _ w [] hw
      have hwnum : isNumJ w = false := isNumJ_eq_false_of_obj w hwobj
      have hext2 := (parse_mut_ext (('{' :: (l₁ ++ ['}'])).length + 1)).1
        ('{' :: (l₁ ++ ['}'])) l₂ w [] hw (Or.inr hwnum)
      simp only [List.nil_append] at hext2
      rw [← hs₀] at hext2
      have hlen : ('{' :: (l₁ ++ ['}'])).length + 1 ≤ ('{' :: tail).length + 1 := by
        simp [hsplit, List.length_append]
      have hmono := parseVal_mono _ _ hlen _ _ hext2
      rw [hval] at hmono
      rw [Option.some.injEq, Prod.mk.injEq] at hmono
      exact hl₂ne hmono.2.symm
  refine ⟨'{' :: (l₁ ++ ['}']), l₂, ?_, hs₀, hl₂ne, hdecE, ?_⟩
  · rw [htrim, List.cons_append]
    exact hext
  · simp [parseReminder, hmsg, htrim, hext, hdecE]

theorem reminder_nested_brace_truncation_witness :
    truthyOpt (some (.str ('h' :: 'i' :: []))) = true ∧
    (∃ e l₂,
      extractBrace (jsTrim ("\x7b\"a\":\x7b\x7d\x7d").toList) = some e ∧
      ("\x7b\"a\":\x7b\x7d\x7d").toList = e ++ l₂ ∧ l₂ ≠ [] ∧
      jsonDecode e = none ∧
      parseReminder true (some (.str ('h' :: 'i' :: [])))
        (.ok ("\x7b\"a\":\x7b\x7d\x7d").toList) = (200, .record defaultReminder)) :=
  ⟨rfl,
    reminder_nested_brace_truncation (some (.str ('h' :: 'i' :: [])))
      ("\x7b\"a\":\x7b\x7d\x7d").toList ("\x7b\"a\":\x7b\x7d\x7d").toList []
      (.obj [("a", .obj [])]) rfl rfl rfl rfl⟩
